import Mathlib

/-!
Verification development for the PDF-Editor edit-operation compositor.

The definitions below are a shallow embedding of the TypeScript sources
(`src/utils/fontManager.ts`, the PDF generator module, `src/hooks/useEditor.ts`,
`src/types/editor.types.ts`).  JavaScript numbers are modelled as rationals,
JavaScript `Map`s as insertion-ordered association lists, `ArrayBuffer`s as
lists of bytes, and asynchronous code is collapsed to explicit state passing
(a promise is represented by its eventual outcome).  External libraries
(pdf-lib, fonteditor-core) are abstracted by an environment of oracle
functions; everything written by this repository is translated directly.
-/

deriving instance DecidableEq for Except

namespace PDFEditor

/-- JavaScript `ArrayBuffer` contents, as a list of bytes. -/
abbrev Bytes := List Nat

/-- JS `Map.get` on an insertion-ordered association list. -/
def jsMapGet {κ α : Type} [BEq κ] : List (κ × α) → κ → Option α
  | [], _ => none
  | e :: rest, k => if e.1 == k then some e.2 else jsMapGet rest k

/-- JS `Map.set`: update in place if the key exists (keeping its position),
otherwise append at the end. -/
def jsMapSet {κ α : Type} [BEq κ] : List (κ × α) → κ → α → List (κ × α)
  | [], k, v => [(k, v)]
  | e :: rest, k, v =>
    if e.1 == k then (k, v) :: rest else e :: jsMapSet rest k v

/-- JS `Set` insertion: append unless already present. -/
def jsSetAdd {α : Type} [DecidableEq α] (s : List α) (x : α) : List α :=
  if x ∈ s then s else s ++ [x]

/-- JS `new Set(list)`: insertion-ordered deduplication. -/
def jsSetOfList {α : Type} [DecidableEq α] (l : List α) : List α :=
  l.foldl jsSetAdd []

/-- `FontConfig` from `fontManager.ts`.  A `blobLoader` is modelled by the
bytes it eventually yields. -/
structure FontConfig where
  id : String
  name : String
  cssFamily : String
  blob : Option Bytes := none
  blobLoader : Option Bytes := none
  isStandard : Bool := false
  standardFont : Option String := none
deriving DecidableEq

/-- The built-in font list `FONTS` (all PDF standard fonts). -/
def FONTS : List FontConfig := [
  { id := "helvetica", name := "Helvetica",
    cssFamily := "Helvetica, Arial, sans-serif",
    isStandard := true, standardFont := some "Helvetica" },
  { id := "helvetica-bold", name := "Helvetica Bold",
    cssFamily := "Helvetica, Arial, sans-serif",
    isStandard := true, standardFont := some "Helvetica-Bold" },
  { id := "helvetica-oblique", name := "Helvetica Oblique",
    cssFamily := "Helvetica, Arial, sans-serif",
    isStandard := true, standardFont := some "Helvetica-Oblique" },
  { id := "times-roman", name := "Times Roman",
    cssFamily := "\"Times New Roman\", Times, serif",
    isStandard := true, standardFont := some "Times-Roman" },
  { id := "times-bold", name := "Times Bold",
    cssFamily := "\"Times New Roman\", Times, serif",
    isStandard := true, standardFont := some "Times-Bold" },
  { id := "times-italic", name := "Times Italic",
    cssFamily := "\"Times New Roman\", Times, serif",
    isStandard := true, standardFont := some "Times-Italic" },
  { id := "courier", name := "Courier",
    cssFamily := "\"Courier New\", Courier, monospace",
    isStandard := true, standardFont := some "Courier" },
  { id := "courier-bold", name := "Courier Bold",
    cssFamily := "\"Courier New\", Courier, monospace",
    isStandard := true, standardFont := some "Courier-Bold" },
  { id := "courier-oblique", name := "Courier Oblique",
    cssFamily := "\"Courier New\", Courier, monospace",
    isStandard := true, standardFont := some "Courier-Oblique" }
]

/-- `DEFAULT_FONT_ID` from `fontManager.ts`. -/
def DEFAULT_FONT_ID : String := "helvetica"

/-- The module-level mutable state of `fontManager.ts`: the dynamically
registered custom fonts, the font byte cache and the in-flight load promises
(each promise represented by its eventual outcome). -/
structure FontManagerState where
  customFonts : List FontConfig
  fontCache : List (String × Bytes)
  fontLoadingPromises : List (String × Except String Bytes)
deriving DecidableEq

/-- `getAllFonts()`: built-in fonts followed by custom fonts. -/
def getAllFonts (st : FontManagerState) : List FontConfig :=
  FONTS ++ st.customFonts

/-- `getFontConfig(fontId)`. -/
def getFontConfig (st : FontManagerState) (fontId : String) :
    Option FontConfig :=
  (getAllFonts st).find? (fun f => f.id == fontId)

/-- Replace the `blob` field of the custom font with the given id
(models the `fontConfig.blob = blob` mutation inside `loadFont`). -/
def setCustomFontBlob (st : FontManagerState) (fontId : String) (b : Bytes) :
    FontManagerState :=
  { st with customFonts :=
      st.customFonts.map (fun c =>
        if c.id == fontId then { c with blob := some b } else c) }

/-- `loadFont(fontId)` from `fontManager.ts`, with the async body collapsed to
its synchronous completion: checks the cache, then the in-flight promise map,
then the configuration; standard fonts yield an empty buffer without touching
the cache; custom fonts load from `blob` or `blobLoader` and populate the
cache.  Returns the result together with the updated module state. -/
def loadFont (st : FontManagerState) (fontId : String) :
    Except String Bytes × FontManagerState :=
  match jsMapGet st.fontCache fontId with
  | some cached => (.ok cached, st)
  | none =>
    match jsMapGet st.fontLoadingPromises fontId with
    | some loading => (loading, st)
    | none =>
      match getFontConfig st fontId with
      | none => (.error ("未找到字体: " ++ fontId), st)
      | some fontConfig =>
        if fontConfig.isStandard then
          (.ok [], st)
        else
          match fontConfig.blob with
          | some b =>
            (.ok b, { st with fontCache := jsMapSet st.fontCache fontId b })
          | none =>
            match fontConfig.blobLoader with
            | some b =>
              let st1 := setCustomFontBlob st fontId b
              (.ok b, { st1 with fontCache := jsMapSet st1.fontCache fontId b })
            | none =>
              (.error ("无效的字体配置: " ++ fontConfig.name), st)

/-- `isFontCached(fontId)`. -/
def isFontCached (st : FontManagerState) (fontId : String) : Bool :=
  (jsMapGet st.fontCache fontId).isSome

/-! ## Editor data model (`editor.types.ts`) -/

/-- The two text variants of `EditOperationType`. -/
inductive TextOpKind where
  | overlayText
  | addText
deriving DecidableEq

/-- `TextStyle`. -/
structure TextStyle where
  fontId : String
  fontSize : ℚ
  fontWeight : String
  fontStyle : String
  color : String
  align : String
deriving DecidableEq

/-- `MaskOperation`. -/
structure MaskOperation where
  id : String
  pageNumber : ℤ
  x : ℚ
  y : ℚ
  width : ℚ
  height : ℚ
deriving DecidableEq

/-- `TextEditOperation` (covers both `OVERLAY_TEXT` and `ADD_TEXT`). -/
structure TextEditOperation where
  kind : TextOpKind
  id : String
  pageNumber : ℤ
  text : String
  x : ℚ
  y : ℚ
  width : ℚ
  height : ℚ
  style : TextStyle
deriving DecidableEq

/-- `ImageOperation`. -/
structure ImageOperation where
  id : String
  pageNumber : ℤ
  imageData : String
  x : ℚ
  y : ℚ
  width : ℚ
  height : ℚ
  rotation : ℚ
deriving DecidableEq

/-- One Fabric.js path command `[opcode, ...numericOperands]`. -/
structure PathCmd where
  op : String
  args : List ℚ
deriving DecidableEq

/-- `DrawPathOperation`. -/
structure DrawPathOperation where
  id : String
  pageNumber : ℤ
  path : List PathCmd
  color : String
  strokeWidth : ℚ
deriving DecidableEq

/-- The tagged union `EditOperation`. -/
inductive EditOperation where
  | mask (m : MaskOperation)
  | text (t : TextEditOperation)
  | image (i : ImageOperation)
  | drawPath (d : DrawPathOperation)
deriving DecidableEq

/-- The `id` field shared by every operation variant. -/
def EditOperation.id : EditOperation → String
  | .mask m => m.id
  | .text t => t.id
  | .image i => i.id
  | .drawPath d => d.id

/-- The `pageNumber` field shared by every operation variant. -/
def EditOperation.pageNumber : EditOperation → ℤ
  | .mask m => m.pageNumber
  | .text t => t.pageNumber
  | .image i => i.pageNumber
  | .drawPath d => d.pageNumber

/-- Whether the operation type is `ADD_TEXT` or `OVERLAY_TEXT`. -/
def EditOperation.isTextOp : EditOperation → Bool
  | .text _ => true
  | _ => false

/-! ## Color parsing (`parseColor` in the PDF generator) -/

/-- A pdf-lib `rgb` color; a `none` component models a JavaScript `NaN`
(produced by `parseInt` on invalid input). -/
structure JSColor where
  r : Option ℚ
  g : Option ℚ
  b : Option ℚ
deriving DecidableEq

/-- JS `s.startsWith(pre)`, computed on the character lists. -/
def jsStartsWith (s pre : String) : Bool :=
  pre.data.isPrefixOf s.data

/-- JS `s.substring(a, b)`. -/
def jsSubstring (s : String) (a b : Nat) : String :=
  ⟨(s.data.drop a).take (b - a)⟩

/-- JS `s.substring(a)`. -/
def jsSubstringFrom (s : String) (a : Nat) : String :=
  ⟨s.data.drop a⟩

/-- Value of one hexadecimal digit. -/
def hexDigitVal (c : Char) : Option Nat :=
  if c.isDigit then some (c.toNat - 48)
  else if 'a' ≤ c ∧ c ≤ 'f' then some (c.toNat - 87)
  else if 'A' ≤ c ∧ c ≤ 'F' then some (c.toNat - 55)
  else none

/-- Accumulate the leading hexadecimal digits. -/
def hexPrefixVal : List Char → Nat → Nat
  | [], acc => acc
  | c :: rest, acc =>
    match hexDigitVal c with
    | some d => hexPrefixVal rest (acc * 16 + d)
    | none => acc

/-- JS `parseInt(s, 16)`: `none` models `NaN` (no leading hex digit). -/
def jsParseIntHex (s : String) : Option Nat :=
  match s.data with
  | [] => none
  | c :: _ =>
    match hexDigitVal c with
    | none => none
    | some _ => some (hexPrefixVal s.data 0)

/-- Maximal digit runs of a string, i.e. the matches of `/\d+/g`. -/
def digitRunsAux : List Char → List Char → List String → List String
  | [], cur, acc => if cur = [] then acc else acc ++ [⟨cur⟩]
  | c :: rest, cur, acc =>
    if c.isDigit then digitRunsAux rest (cur ++ [c]) acc
    else if cur = [] then digitRunsAux rest [] acc
    else digitRunsAux rest [] (acc ++ [⟨cur⟩])

/-- Matches of `/\d+/g` over a string. -/
def digitRuns (s : String) : List String := digitRunsAux s.data [] []

/-- Decimal value of a digit run. -/
def decDigitsVal (l : List Char) : Nat :=
  l.foldl (fun acc c => acc * 10 + (c.toNat - 48)) 0

/-- `parseColor(colorString)`: HEX form, `rgb(...)` form, or default black. -/
def parseColor (colorString : String) : JSColor :=
  if jsStartsWith colorString "#" then
    let hex := jsSubstringFrom colorString 1
    { r := (jsParseIntHex (jsSubstring hex 0 2)).map (fun n => (n : ℚ) / 255),
      g := (jsParseIntHex (jsSubstring hex 2 4)).map (fun n => (n : ℚ) / 255),
      b := (jsParseIntHex (jsSubstring hex 4 6)).map (fun n => (n : ℚ) / 255) }
  else if jsStartsWith colorString "rgb" then
    let m := digitRuns colorString
    if m ≠ [] then
      { r := (m.get? 0).map (fun s => (decDigitsVal s.data : ℚ) / 255),
        g := (m.get? 1).map (fun s => (decDigitsVal s.data : ℚ) / 255),
        b := (m.get? 2).map (fun s => (decDigitsVal s.data : ℚ) / 255) }
    else { r := some 0, g := some 0, b := some 0 }
  else { r := some 0, g := some 0, b := some 0 }

/-! ## Pages and draw primitives (pdf-lib surface) -/

/-- A font handle returned by pdf-lib embedding: either a standard font or a
custom font wrapping the embedded bytes. -/
inductive EmbeddedFont where
  | standard (name : String)
  | custom (bytes : Bytes)
deriving DecidableEq

/-- The `Map<string, any>` of embedded fonts, in insertion order. -/
abbrev EmbeddedFontMap := List (String × EmbeddedFont)

/-- Image formats accepted by `applyImageOperation`. -/
inductive ImageFormat where
  | png
  | jpeg
deriving DecidableEq

/-- A low-level pdf-lib drawing call recorded on a page. -/
inductive DrawCmd where
  | drawRectangle (x y width height : ℚ) (color : JSColor) (opacity : ℚ)
  | drawText (text : String) (x y size : ℚ) (font : EmbeddedFont)
      (color : JSColor)
  | drawImage (format : ImageFormat) (imageData : String)
      (x y width height rotation : ℚ)
  | drawSvgPath (path : List PathCmd) (x y borderWidth : ℚ)
      (borderColor : JSColor)
deriving DecidableEq

/-- A PDF page: its height in document units and the drawing calls applied on
top of the existing content, in order. -/
structure PDFPage where
  height : ℚ
  drawn : List DrawCmd
deriving DecidableEq

/-- A loaded pdf-lib document: its ordered page list. -/
structure PDFDocument where
  pages : List PDFPage
deriving DecidableEq

/-- `pdfDoc.getPage(i)`: throws when the index is out of range. -/
def getPage (doc : PDFDocument) (i : ℤ) : Except String PDFPage :=
  if 0 ≤ i then
    match doc.pages.get? i.toNat with
    | some p => .ok p
    | none => .error "page index out of range"
  else .error "page index out of range"

/-- Writing the mutated page object back at its index. -/
def setPage (doc : PDFDocument) (i : ℤ) (p : PDFPage) : PDFDocument :=
  if 0 ≤ i then ⟨doc.pages.set i.toNat p⟩ else doc

/-! ## Per-operation compositing (the PDF generator module) -/

/-- `applyMaskOperation`: white opaque rectangle with the top-left raster
anchor converted to PDF bottom-left rectangle origin. -/
def applyMaskOperation (operation : MaskOperation) (page : PDFPage)
    (canvasHeight pdfPageHeight : ℚ) : PDFPage :=
  let scale := pdfPageHeight / canvasHeight
  let pdfX := operation.x * scale
  let pdfY := pdfPageHeight - operation.y * scale
  let pdfWidth := operation.width * scale
  let pdfHeight := operation.height * scale
  { page with drawn := page.drawn ++
      [.drawRectangle pdfX (pdfY - pdfHeight) pdfWidth pdfHeight
        { r := some 1, g := some 1, b := some 1 } 1] }

/-- The font lookup inside `applyTextOperation`: the operation's own font id,
else the first embedded font (JS `Map` iteration order = insertion order). -/
def resolveTextFont (fonts : EmbeddedFontMap) (fontId : String) :
    Option EmbeddedFont :=
  match jsMapGet fonts fontId with
  | some f => some f
  | none => fonts.head?.map (·.2)

/-- `applyTextOperation`: scales the font size, converts the raster top-left
anchor to a PDF baseline position with the 0.85 baseline offset, and draws
the text; when no font at all is available it logs and draws nothing. -/
def applyTextOperation (operation : TextEditOperation) (page : PDFPage)
    (fonts : EmbeddedFontMap) (canvasHeight pdfPageHeight : ℚ) : PDFPage :=
  let scale := pdfPageHeight / canvasHeight
  let pdfFontSize := operation.style.fontSize * scale
  let pdfX := operation.x * scale
  let baselineOffset := pdfFontSize * (0.85 : ℚ)
  let pdfY := pdfPageHeight - operation.y * scale - baselineOffset
  match resolveTextFont fonts operation.style.fontId with
  | none => page
  | some font =>
    { page with drawn := page.drawn ++
        [.drawText operation.text pdfX pdfY pdfFontSize font
          (parseColor operation.style.color)] }

/-- `applyImageOperation`: sniffs the format from the data-URL prefix,
embeds, and draws; any other prefix throws `不支持的图片格式`.  (The base64
decode and the pdf-lib embedding of well-formed data are abstracted as
succeeding; the recorded command keeps the original data string.) -/
def applyImageOperation (operation : ImageOperation) (page : PDFPage)
    (canvasHeight pdfPageHeight : ℚ) : Except String PDFPage :=
  let scale := pdfPageHeight / canvasHeight
  let pdfX := operation.x * scale
  let pdfY := pdfPageHeight - operation.y * scale
  let pdfWidth := operation.width * scale
  let pdfHeight := operation.height * scale
  if jsStartsWith operation.imageData "data:image/png" then
    .ok { page with drawn := page.drawn ++
        [.drawImage .png operation.imageData pdfX (pdfY - pdfHeight)
          pdfWidth pdfHeight operation.rotation] }
  else if jsStartsWith operation.imageData "data:image/jpeg"
      || jsStartsWith operation.imageData "data:image/jpg" then
    .ok { page with drawn := page.drawn ++
        [.drawImage .jpeg operation.imageData pdfX (pdfY - pdfHeight)
          pdfWidth pdfHeight operation.rotation] }
  else .error "不支持的图片格式"

/-- `applyDrawPathOperation`: empty paths draw nothing; otherwise every
numeric operand of every command is multiplied by `scale` (the opcode at
index 0 is kept), and the path is drawn anchored at the page top edge
`(0, pdfPageHeight)` with the scaled stroke width. -/
def applyDrawPathOperation (operation : DrawPathOperation) (page : PDFPage)
    (canvasHeight pdfPageHeight : ℚ) : PDFPage :=
  let scale := pdfPageHeight / canvasHeight
  let pdfStrokeWidth := operation.strokeWidth * scale
  let strokeColor := parseColor operation.color
  if operation.path = [] then page
  else
    let svgPath := operation.path.map (fun cmd =>
      { op := cmd.op, args := cmd.args.map (fun value => value * scale) })
    { page with drawn := page.drawn ++
        [.drawSvgPath svgPath 0 pdfPageHeight pdfStrokeWidth strokeColor] }

/-- `applyOperation`: dispatch on the operation type. -/
def applyOperation (operation : EditOperation) (page : PDFPage)
    (embeddedFonts : EmbeddedFontMap) (canvasHeight pdfPageHeight : ℚ) :
    Except String PDFPage :=
  match operation with
  | .mask m => .ok (applyMaskOperation m page canvasHeight pdfPageHeight)
  | .text t =>
    .ok (applyTextOperation t page embeddedFonts canvasHeight pdfPageHeight)
  | .image i => applyImageOperation i page canvasHeight pdfPageHeight
  | .drawPath d =>
    .ok (applyDrawPathOperation d page canvasHeight pdfPageHeight)

/-! ## Font character collection and subsetting -/

/-- `collectFontChars` step for one operation: for a text operation with a
truthy `fontId` and `text`, merge the operation's text into the map entry for
that font id, deduplicating characters (JS `new Set(allChars.split(''))`
followed by `join('')`). -/
def collectStep (m : List (String × String)) (op : EditOperation) :
    List (String × String) :=
  match op with
  | .text t =>
    if t.style.fontId ≠ "" ∧ t.text ≠ "" then
      let existingChars := (jsMapGet m t.style.fontId).getD ""
      let allChars := existingChars ++ t.text
      let uniqueChars : String := ⟨jsSetOfList allChars.data⟩
      jsMapSet m t.style.fontId uniqueChars
    else m
  | _ => m

/-- `collectFontChars(operations)`: the per-font-id deduplicated character
strings, as an insertion-ordered map. -/
def collectFontChars (operations : List EditOperation) :
    List (String × String) :=
  operations.foldl collectStep []

/-- The glyph set computed inside `subsetFontWithFonteditor`: the code of
every character of the string (insertion-ordered set), plus the baseline
characters space (32) and period (46). -/
def subsetGlyphList (characters : List Char) : List Nat :=
  jsSetAdd (jsSetAdd (jsSetOfList (characters.map Char.toNat)) 32) 46

/-- The external oracles: `fonteditor-core` subsetting (`Font.create` +
`write`, `none` models a throw) and whether pdf-lib `embedFont` accepts a
given binary (`false` models a throw, e.g. a corrupt font). -/
structure PdfEnv where
  subsetWrite : Bytes → List Nat → Option Bytes
  embedOk : Bytes → Bool

/-- `subsetFontWithFonteditor(fontBuffer, characters)`. -/
def subsetFontWithFonteditor (env : PdfEnv) (fontBuffer : Bytes)
    (characters : String) : Option Bytes :=
  env.subsetWrite fontBuffer (subsetGlyphList characters.data)

/-- Events logged by the font embedding pre-pass (`console.log` /
`console.error` calls, abstracted from the interpolated message strings). -/
inductive FontLog where
  | embeddedStandard (fontId : String)
  | subsetOk (fontId : String)
  | subsetFailed (fontId : String)
  | fallbackFull (fontId : String)
  | fullEmbedFailed (fontId : String)
deriving DecidableEq

/-- The `catch` block of the embedding loop: reload the font and embed the
full, unsubsetted binary; if that also fails, log and embed nothing. -/
def embedFontFallback (env : PdfEnv) (st : FontManagerState)
    (fontId : String) :
    Option EmbeddedFont × FontManagerState × List FontLog :=
  match loadFont st fontId with
  | (.ok fontBytes, st1) =>
    if env.embedOk fontBytes then
      (some (.custom fontBytes), st1,
        [.subsetFailed fontId, .fallbackFull fontId])
    else
      (none, st1, [.subsetFailed fontId, .fullEmbedFailed fontId])
  | (.error _, st1) =>
    (none, st1, [.subsetFailed fontId, .fullEmbedFailed fontId])

/-- One iteration of the embedding loop of `generateEditedPDF`: unknown ids
are skipped; standard fonts are embedded by name; custom fonts are loaded,
subsetted and embedded, falling back to the full binary on any failure. -/
def embedOneFont (env : PdfEnv) (st : FontManagerState) (fontId : String)
    (chars : String) :
    Option EmbeddedFont × FontManagerState × List FontLog :=
  match getFontConfig st fontId with
  | none => (none, st, [])
  | some fontConfig =>
    if fontConfig.isStandard && fontConfig.standardFont.isSome then
      (some (.standard (fontConfig.standardFont.getD "")), st,
        [.embeddedStandard fontId])
    else
      match loadFont st fontId with
      | (.ok fontBytes, st1) =>
        match subsetFontWithFonteditor env fontBytes chars with
        | some subsetBuffer =>
          if env.embedOk subsetBuffer then
            (some (.custom subsetBuffer), st1, [.subsetOk fontId])
          else embedFontFallback env st1 fontId
        | none => embedFontFallback env st1 fontId
      | (.error _, st1) => embedFontFallback env st1 fontId

/-- The whole embedding loop over `fontCharsEntries`, accumulating the
embedded-font map. -/
def embedFontsPass (env : PdfEnv) :
    FontManagerState → EmbeddedFontMap → List (String × String) →
    EmbeddedFontMap × FontManagerState × List FontLog
  | st, fonts, [] => (fonts, st, [])
  | st, fonts, (fontId, chars) :: rest =>
    let r := embedOneFont env st fontId chars
    let fonts1 :=
      match r.1 with
      | some f => jsMapSet fonts fontId f
      | none => fonts
    let t := embedFontsPass env r.2.1 fonts1 rest
    (t.1, t.2.1, r.2.2 ++ t.2.2)

/-- The default-font block of `generateEditedPDF`: when nothing was embedded
but text operations exist, embed the first built-in font (loading, subsetting
and embedding it when it is not standard; failures there propagate). -/
def ensureDefaultFont (env : PdfEnv) (st : FontManagerState)
    (operations : List EditOperation) (embeddedFonts : EmbeddedFontMap) :
    Except String (EmbeddedFontMap × FontManagerState) :=
  if embeddedFonts.length = 0 ∧ operations.length > 0 then
    let textOps := operations.filter (fun op => op.isTextOp)
    if textOps.length > 0 then
      match FONTS.head? with
      | none => .ok (embeddedFonts, st)
      | some defaultFontConfig =>
        if defaultFontConfig.isStandard
            && defaultFontConfig.standardFont.isSome then
          .ok (jsMapSet embeddedFonts defaultFontConfig.id
              (.standard (defaultFontConfig.standardFont.getD "")), st)
        else
          let allText := String.join (textOps.map (fun op =>
            match op with | .text t => t.text | _ => ""))
          match loadFont st defaultFontConfig.id with
          | (.error e, _) => .error e
          | (.ok fontBytes, st1) =>
            match subsetFontWithFonteditor env fontBytes allText with
            | some subsetBuffer =>
              if env.embedOk subsetBuffer then
                .ok (jsMapSet embeddedFonts defaultFontConfig.id
                    (.custom subsetBuffer), st1)
              else if env.embedOk fontBytes then
                .ok (jsMapSet embeddedFonts defaultFontConfig.id
                    (.custom fontBytes), st1)
              else .error "embedFont failed"
            | none =>
              if env.embedOk fontBytes then
                .ok (jsMapSet embeddedFonts defaultFontConfig.id
                    (.custom fontBytes), st1)
              else .error "embedFont failed"
    else .ok (embeddedFonts, st)
  else .ok (embeddedFonts, st)

/-! ## Page grouping and the per-page loop -/

/-- One step of `groupOperationsByPage`: append the operation to its page
bucket, creating the bucket on first use. -/
def groupStep (grouped : List (ℤ × List EditOperation)) (op : EditOperation) :
    List (ℤ × List EditOperation) :=
  match jsMapGet grouped op.pageNumber with
  | some l => jsMapSet grouped op.pageNumber (l ++ [op])
  | none => grouped ++ [(op.pageNumber, [op])]

/-- `groupOperationsByPage(operations)`: a `Record<number, EditOperation[]>`
built by appending each operation to its page bucket. -/
def groupOperationsByPage (operations : List EditOperation) :
    List (ℤ × List EditOperation) :=
  operations.foldl groupStep []

/-- `Object.entries` over the page record: JavaScript enumerates array-index
keys in ascending numeric order (page numbers are positive integers). -/
def pageEntries (operations : List EditOperation) :
    List (ℤ × List EditOperation) :=
  (groupOperationsByPage operations).insertionSort
    (fun a b => a.1 ≤ b.1)

/-- The inner loop of `generateEditedPDF`: apply a page's operations to the
page object in their recorded order. -/
def applyOpsToPage (fonts : EmbeddedFontMap)
    (canvasHeight pdfPageHeight : ℚ) :
    List EditOperation → PDFPage → Except String PDFPage
  | [], page => .ok page
  | op :: rest, page =>
    match applyOperation op page fonts canvasHeight pdfPageHeight with
    | .ok page1 => applyOpsToPage fonts canvasHeight pdfPageHeight rest page1
    | .error e => .error e

/-- The outer loop of `generateEditedPDF`: for each page entry, look up the
0-indexed page `pageNumber - 1`, read its height, and apply the entry's
operations. -/
def applyOperationsToDoc (fonts : EmbeddedFontMap) (canvasHeight : ℚ) :
    List (ℤ × List EditOperation) → PDFDocument → Except String PDFDocument
  | [], doc => .ok doc
  | (pageNumber, pageOperations) :: rest, doc =>
    match getPage doc (pageNumber - 1) with
    | .error e => .error e
    | .ok page =>
      match applyOpsToPage fonts canvasHeight page.height pageOperations
          page with
      | .error e => .error e
      | .ok page1 =>
        applyOperationsToDoc fonts canvasHeight rest
          (setPage doc (pageNumber - 1) page1)

/-- `generateEditedPDF(originalFile, operations, pageHeight)` after the
original document has been loaded (`PDFDocument.load` is the caller-side
boundary): the font collection pre-pass, the embedding loop, the default-font
block, then the grouped per-page drawing loop; `save()` serializes the
resulting document, which the model returns directly. -/
def generateEditedPDF (env : PdfEnv) (st : FontManagerState)
    (pdfDoc : PDFDocument) (operations : List EditOperation)
    (pageHeight : ℚ) : Except String PDFDocument :=
  let fontCharsEntries := collectFontChars operations
  let passResult := embedFontsPass env st [] fontCharsEntries
  match ensureDefaultFont env passResult.2.1 operations passResult.1 with
  | .error e => .error e
  | .ok (embeddedFonts, _) =>
    applyOperationsToDoc embeddedFonts pageHeight
      (pageEntries operations) pdfDoc

/-! ## `useEditor.ts` -/

/-- JS `Array.findIndex`: the first index satisfying the predicate, or -1. -/
def jsFindIndex {α : Type} (p : α → Bool) : List α → ℤ
  | [] => -1
  | a :: rest =>
    if p a then 0
    else if jsFindIndex p rest < 0 then -1 else jsFindIndex p rest + 1

/-- `addOperation` from `useEditor.ts`: replace the operation at the first
index with the same `id`, or append when no such operation exists. -/
def addOperation (operations : List EditOperation)
    (operation : EditOperation) : List EditOperation :=
  let existingIndex :=
    jsFindIndex (fun op => op.id == operation.id) operations
  if 0 ≤ existingIndex then operations.set existingIndex.toNat operation
  else operations ++ [operation]

/-- `exportPDF` from `useEditor.ts`: run `generateEditedPDF` over the loaded
original (a failed `PDFDocument.load` is an error input) and report success;
any thrown error is caught and surfaced as `false`, with no document. -/
def exportPDF (env : PdfEnv) (st : FontManagerState)
    (loaded : Except String PDFDocument) (operations : List EditOperation)
    (pageHeight : ℚ) : Bool :=
  match loaded with
  | .error _ => false
  | .ok pdfDoc =>
    match generateEditedPDF env st pdfDoc operations pageHeight with
    | .ok _ => true
    | .error _ => false

/-! ## Theorems -/

/-- C4: for every Mask operation, with `scale = pdfPageHeight /
canvasHeight`, a rectangle of solid white color `rgb(1,1,1)` at full opacity
1 is drawn with origin `(x * scale, pdfPageHeight - y * scale - height *
scale)` and size `(width * scale, height * scale)` — the top-left raster
anchor converted to PDF's bottom-left rectangle origin. -/
theorem applyMaskOperation_spec (m : MaskOperation) (page : PDFPage)
    (canvasHeight pdfPageHeight : ℚ) :
    applyMaskOperation m page canvasHeight pdfPageHeight =
      { page with drawn := page.drawn ++
        [.drawRectangle (m.x * (pdfPageHeight / canvasHeight))
          (pdfPageHeight - m.y * (pdfPageHeight / canvasHeight)
            - m.height * (pdfPageHeight / canvasHeight))
          (m.width * (pdfPageHeight / canvasHeight))
          (m.height * (pdfPageHeight / canvasHeight))
          { r := some 1, g := some 1, b := some 1 } 1] } := rfl

/-- General form of the TextEdit draw-position fact, shared between C1 and
C8: when the font lookup resolves, the text is drawn at the scaled position
with the 0.85 baseline offset. -/
theorem applyTextOperation_draws (t : TextEditOperation) (page : PDFPage)
    (fonts : EmbeddedFontMap) (canvasHeight pdfPageHeight : ℚ)
    (f : EmbeddedFont)
    (hf : resolveTextFont fonts t.style.fontId = some f) :
    applyTextOperation t page fonts canvasHeight pdfPageHeight =
      { page with drawn := page.drawn ++
        [.drawText t.text (t.x * (pdfPageHeight / canvasHeight))
          (pdfPageHeight - t.y * (pdfPageHeight / canvasHeight)
            - (0.85 : ℚ) * (t.style.fontSize * (pdfPageHeight / canvasHeight)))
          (t.style.fontSize * (pdfPageHeight / canvasHeight)) f
          (parseColor t.style.color)] } := by
  unfold applyTextOperation
  rw [hf]
  simp only [PDFPage.mk.injEq, true_and]
  congr 2
  ring_nf

/-- C1: for every TextEdit operation that resolves to a font, with `scale =
pdfPageHeight / canvasHeight`, the text is drawn at `x * scale` and
`pdfPageHeight - y * scale - 0.85 * (fontSize * scale)` with font size
`fontSize * scale`. -/
theorem applyTextOperation_spec (t : TextEditOperation) (page : PDFPage)
    (fonts : EmbeddedFontMap) (canvasHeight pdfPageHeight : ℚ)
    (f : EmbeddedFont)
    (hf : resolveTextFont fonts t.style.fontId = some f) :
    applyTextOperation t page fonts canvasHeight pdfPageHeight =
      { page with drawn := page.drawn ++
        [.drawText t.text (t.x * (pdfPageHeight / canvasHeight))
          (pdfPageHeight - t.y * (pdfPageHeight / canvasHeight)
            - (0.85 : ℚ) * (t.style.fontSize * (pdfPageHeight / canvasHeight)))
          (t.style.fontSize * (pdfPageHeight / canvasHeight)) f
          (parseColor t.style.color)] } :=
  applyTextOperation_draws t page fonts canvasHeight pdfPageHeight f hf

/-- C2: for every DrawPath operation with a nonempty path, the translated
path is the same command sequence with each opcode unchanged and every
numeric operand multiplied by `scale = pdfPageHeight / canvasHeight`
(command order and arity preserved, no axis flip — the path is anchored at
the page's top edge `(0, pdfPageHeight)`), and the stroke width is
multiplied by the same scale. -/
theorem applyDrawPathOperation_spec (d : DrawPathOperation) (page : PDFPage)
    (canvasHeight pdfPageHeight : ℚ) (hne : d.path ≠ []) :
    applyDrawPathOperation d page canvasHeight pdfPageHeight =
      { page with drawn := page.drawn ++
        [.drawSvgPath
          (d.path.map (fun cmd =>
            { op := cmd.op,
              args := cmd.args.map
                (fun value => value * (pdfPageHeight / canvasHeight)) }))
          0 pdfPageHeight
          (d.strokeWidth * (pdfPageHeight / canvasHeight))
          (parseColor d.color)] } := by
  unfold applyDrawPathOperation
  simp only [if_neg hne]

/-- The text style of the C1 spec scenario. -/
def sampleStyle : TextStyle :=
  { fontId := "helvetica", fontSize := 16, fontWeight := "normal",
    fontStyle := "normal", color := "#000000", align := "left" }

/-- The spec scenario TextEdit: raster (100, 200), font size 16. -/
def sampleTextOp : TextEditOperation :=
  { kind := .addText, id := "t1", pageNumber := 1, text := "Hi",
    x := 100, y := 200, width := 50, height := 20, style := sampleStyle }

/-- Witness for C1, the spec scenario: raster page height 1000, PDF page
height 792, so the text lands at x = 79.2, baseline y = 622.8288 ≈ 622.83,
size 12.672. -/
theorem applyTextOperation_spec_witness :
    resolveTextFont [("helvetica", .standard "Helvetica")] "helvetica"
        = some (.standard "Helvetica") ∧
    applyTextOperation sampleTextOp { height := 792, drawn := [] }
      [("helvetica", .standard "Helvetica")] 1000 792 =
      { height := 792, drawn :=
        [.drawText "Hi" (79.2 : ℚ) (622.8288 : ℚ) (12.672 : ℚ)
          (.standard "Helvetica") (parseColor "#000000")] } := by
  refine ⟨by decide, ?_⟩
  have h := applyTextOperation_spec sampleTextOp { height := 792, drawn := [] }
    [("helvetica", .standard "Helvetica")] 1000 792
    (.standard "Helvetica") (by decide)
  rw [h]
  simp only [sampleTextOp, sampleStyle]
  norm_num

/-- The spec scenario DrawPath: `[["M", 10, 10], ["L", 20, 20]]`. -/
def sampleDrawPath : DrawPathOperation :=
  { id := "p1", pageNumber := 1,
    path := [⟨"M", [10, 10]⟩, ⟨"L", [20, 20]⟩],
    color := "#ff0000", strokeWidth := 4 }

/-- Witness for C2, the spec scenario: scale 0.5 translates
`[["M", 10, 10], ["L", 20, 20]]` to `[["M", 5, 5], ["L", 10, 10]]` and the
stroke width 4 to 2. -/
theorem applyDrawPathOperation_spec_witness :
    sampleDrawPath.path ≠ [] ∧
    applyDrawPathOperation sampleDrawPath { height := 500, drawn := [] }
      1000 500 =
      { height := 500, drawn :=
        [.drawSvgPath [⟨"M", [5, 5]⟩, ⟨"L", [10, 10]⟩] 0 500 (2 : ℚ)
          (parseColor "#ff0000")] } := by
  refine ⟨by simp [sampleDrawPath], ?_⟩
  have h := applyDrawPathOperation_spec sampleDrawPath
    { height := 500, drawn := [] } 1000 500 (by simp [sampleDrawPath])
  rw [h]
  simp only [sampleDrawPath]
  norm_num

/-! ### Lemmas about `jsFindIndex` -/

theorem jsFindIndex_cons {α : Type} (p : α → Bool) (a : α) (rest : List α) :
    jsFindIndex p (a :: rest) =
      if p a then 0
      else if jsFindIndex p rest < 0 then -1 else jsFindIndex p rest + 1 :=
  rfl

theorem jsFindIndex_ge {α : Type} (p : α → Bool) (l : List α) :
    -1 ≤ jsFindIndex p l := by
  induction l with
  | nil => simp [jsFindIndex]
  | cons a rest ih =>
    rw [jsFindIndex_cons]
    by_cases hp : p a = true
    · rw [if_pos hp]; omega
    · rw [if_neg hp]
      split_ifs <;> omega

theorem jsFindIndex_nonneg_iff {α : Type} (p : α → Bool) (l : List α) :
    0 ≤ jsFindIndex p l ↔ ∃ x ∈ l, p x = true := by
  induction l with
  | nil => simp [jsFindIndex]
  | cons a rest ih =>
    rw [jsFindIndex_cons]
    by_cases hp : p a = true
    · rw [if_pos hp]
      exact iff_of_true (le_refl 0) ⟨a, List.mem_cons_self a rest, hp⟩
    · rw [if_neg hp]
      constructor
      · intro hle
        split_ifs at hle with hneg
        · omega
        · obtain ⟨x, hx, hpx⟩ := ih.mp (by omega)
          exact ⟨x, List.mem_cons_of_mem a hx, hpx⟩
      · rintro ⟨x, hx, hpx⟩
        rcases List.mem_cons.mp hx with rfl | hx
        · exact absurd hpx hp
        · have h0 : 0 ≤ jsFindIndex p rest := ih.mpr ⟨x, hx, hpx⟩
          split_ifs with hneg
          · omega
          · omega

theorem jsFindIndex_found {α : Type} (p : α → Bool) (l : List α) (i : ℤ)
    (h : jsFindIndex p l = i) (hi : 0 ≤ i) :
    i.toNat < l.length ∧
    (∃ x, l.get? i.toNat = some x ∧ p x = true) ∧
    (∀ j : ℕ, j < i.toNat → ∀ x, l.get? j = some x → p x = false) := by
  induction l generalizing i with
  | nil => simp [jsFindIndex] at h; omega
  | cons a rest ih =>
    rw [jsFindIndex_cons] at h
    by_cases hp : p a = true
    · rw [if_pos hp] at h
      subst h
      refine ⟨by simp, ⟨a, by simp, hp⟩, ?_⟩
      intro j hj x hx
      exact absurd hj (by omega)
    · rw [if_neg hp] at h
      have hpf : p a = false := by revert hp; cases p a <;> simp
      have hrest := jsFindIndex_ge p rest
      split_ifs at h with hneg
      · omega
      · have hidx : jsFindIndex p rest = i - 1 := by omega
        have h0 : 0 ≤ i - 1 := by omega
        obtain ⟨hlen, ⟨x, hx, hpx⟩, hfirst⟩ := ih (i - 1) hidx h0
        have htn : i.toNat = (i - 1).toNat + 1 := by omega
        refine ⟨?_, ⟨x, ?_, hpx⟩, ?_⟩
        · simp only [List.length_cons]; omega
        · rw [htn, List.get?_cons_succ]; exact hx
        · intro j hj y hy
          rcases j with _ | j
          · rw [List.get?_cons_zero] at hy
            cases hy
            exact hpf
          · rw [htn] at hj
            rw [List.get?_cons_succ] at hy
            exact hfirst j (by omega) y hy

theorem jsFindIndex_set {α : Type} (p : α → Bool) (l : List α) (i : ℤ)
    (a : α) (h : jsFindIndex p l = i) (hi : 0 ≤ i) (ha : p a = true) :
    jsFindIndex p (l.set i.toNat a) = i := by
  induction l generalizing i with
  | nil => simp [jsFindIndex] at h; omega
  | cons b rest ih =>
    rw [jsFindIndex_cons] at h
    by_cases hp : p b = true
    · rw [if_pos hp] at h
      subst h
      rw [Int.toNat_zero, List.set_cons_zero, jsFindIndex_cons, if_pos ha]
    · rw [if_neg hp] at h
      have hrest := jsFindIndex_ge p rest
      split_ifs at h with hneg
      · omega
      · have hidx : jsFindIndex p rest = i - 1 := by omega
        have h0 : 0 ≤ i - 1 := by omega
        have htn : i.toNat = (i - 1).toNat + 1 := by omega
        rw [htn, List.set_cons_succ, jsFindIndex_cons, if_neg hp,
          ih (i - 1) hidx h0, if_neg (by omega)]
        omega

theorem jsFindIndex_append_singleton {α : Type} (p : α → Bool) (l : List α)
    (a : α) (h : jsFindIndex p l = -1) (ha : p a = true) :
    jsFindIndex p (l ++ [a]) = (l.length : ℤ) := by
  induction l with
  | nil =>
    rw [List.nil_append, jsFindIndex_cons, if_pos ha]
    simp
  | cons b rest ih =>
    rw [jsFindIndex_cons] at h
    by_cases hp : p b = true
    · rw [if_pos hp] at h
      exact absurd h (by omega)
    · rw [if_neg hp] at h
      have hrest := jsFindIndex_ge p rest
      split_ifs at h with hneg
      · have hr : jsFindIndex p rest = -1 := by omega
        rw [List.cons_append, jsFindIndex_cons, if_neg hp, ih hr,
          if_neg (by omega)]
        simp only [List.length_cons]
        omega
      · omega

theorem set_length_append {α : Type} (l : List α) (a b : α) :
    (l ++ [a]).set l.length b = l ++ [b] := by
  induction l with
  | nil => rfl
  | cons x rest ih => simp [ih]

/-- C9: `addOperation` is a replace-or-insert keyed by `id`: an operation
with the same id already present (the find index is nonnegative) is replaced
at its existing position, leaving the length and every other position
unchanged; otherwise the operation is appended; and applying `addOperation`
twice with the same operation equals applying it once. -/
theorem addOperation_spec (ops : List EditOperation) (op : EditOperation) :
    (0 ≤ jsFindIndex (fun o => o.id == op.id) ops ↔
      ∃ o ∈ ops, o.id = op.id) ∧
    (∀ i : ℤ, jsFindIndex (fun o => o.id == op.id) ops = i → 0 ≤ i →
      addOperation ops op = ops.set i.toNat op ∧
      (addOperation ops op).length = ops.length ∧
      (addOperation ops op).get? i.toNat = some op ∧
      ∀ j : ℕ, j ≠ i.toNat → (addOperation ops op).get? j = ops.get? j) ∧
    (jsFindIndex (fun o => o.id == op.id) ops = -1 →
      addOperation ops op = ops ++ [op]) ∧
    addOperation (addOperation ops op) op = addOperation ops op := by
  refine ⟨?_, ?_, ?_, ?_⟩
  · rw [jsFindIndex_nonneg_iff]
    constructor
    · rintro ⟨o, ho, hpo⟩
      exact ⟨o, ho, by simpa using hpo⟩
    · rintro ⟨o, ho, hpo⟩
      exact ⟨o, ho, by simpa using hpo⟩
  · intro i h hi
    have heq : addOperation ops op = ops.set i.toNat op := by
      simp only [addOperation]
      rw [h, if_pos hi]
    obtain ⟨hlen, ⟨x, hx, hpx⟩, _⟩ :=
      jsFindIndex_found (fun o => o.id == op.id) ops i h hi
    refine ⟨heq, ?_, ?_, ?_⟩
    · rw [heq]
      exact List.length_set ops i.toNat op
    · rw [heq, List.get?_set, if_pos rfl, hx]
      rfl
    · intro j hj
      rw [heq, List.get?_set, if_neg (fun hh => hj hh.symm)]
  · intro h
    simp only [addOperation]
    rw [h, if_neg (by omega)]
  · have hpop : (fun o : EditOperation => o.id == op.id) op = true := by
      simp
    by_cases hcase : 0 ≤ jsFindIndex (fun o => o.id == op.id) ops
    · have heq : addOperation ops op =
          ops.set (jsFindIndex (fun o => o.id == op.id) ops).toNat op := by
        simp only [addOperation]
        rw [if_pos hcase]
      have hset := jsFindIndex_set (fun o => o.id == op.id) ops
        (jsFindIndex (fun o => o.id == op.id) ops) op rfl hcase hpop
      rw [heq]
      simp only [addOperation]
      rw [hset, if_pos hcase]
      exact List.set_set op op ops
        (jsFindIndex (fun o => o.id == op.id) ops).toNat
    · have hge := jsFindIndex_ge (fun o => o.id == op.id) ops
      have hm1 : jsFindIndex (fun o => o.id == op.id) ops = -1 := by omega
      have heq : addOperation ops op = ops ++ [op] := by
        simp only [addOperation]
        rw [hm1, if_neg (by omega)]
      have happ := jsFindIndex_append_singleton (fun o => o.id == op.id)
        ops op hm1 hpop
      rw [heq]
      simp only [addOperation]
      rw [happ, if_pos (by omega), Int.toNat_natCast]
      exact set_length_append ops op op

/-- Sample operations for the C9 witness. -/
def wOpA : EditOperation :=
  .mask { id := "a", pageNumber := 1, x := 0, y := 0, width := 1, height := 1 }

/-- Second sample operation. -/
def wOpB : EditOperation :=
  .mask { id := "b", pageNumber := 1, x := 2, y := 2, width := 1, height := 1 }

/-- A replacement operation with the same id as `wOpB`. -/
def wOpB2 : EditOperation :=
  .mask { id := "b", pageNumber := 1, x := 5, y := 6, width := 7, height := 8 }

/-- An operation with a fresh id. -/
def wOpC : EditOperation :=
  .mask { id := "c", pageNumber := 2, x := 0, y := 0, width := 1, height := 1 }

/-- Witness for C9: replacing by an existing id keeps the position, a fresh
id is appended, and the double application equals the single one. -/
theorem addOperation_spec_witness :
    jsFindIndex (fun o => o.id == wOpB2.id) [wOpA, wOpB] = 1 ∧
    addOperation [wOpA, wOpB] wOpB2 = [wOpA, wOpB2] ∧
    jsFindIndex (fun o => o.id == wOpC.id) [wOpA, wOpB] = -1 ∧
    addOperation [wOpA, wOpB] wOpC = [wOpA, wOpB, wOpC] ∧
    addOperation (addOperation [wOpA, wOpB] wOpB2) wOpB2
      = addOperation [wOpA, wOpB] wOpB2 := by
  refine ⟨by decide, ?_, by decide, ?_, ?_⟩
  · have h :=
      ((addOperation_spec [wOpA, wOpB] wOpB2).2.1 1 (by decide) (by decide)).1
    rw [h]
    decide
  · have h := (addOperation_spec [wOpA, wOpB] wOpC).2.2.1 (by decide)
    rw [h]
    rfl
  · exact (addOperation_spec [wOpA, wOpB] wOpB2).2.2.2

/-- C10: for a font id whose configuration is marked standard — and which is
neither cached nor mid-load, the invariant of every reachable module state —
`loadFont` returns an empty buffer of byte length 0 and leaves the state
(including the cache) unchanged, so `isFontCached` stays false; and any
`loadFont` call that does change the cache was for a font id whose
configuration exists and is not standard, i.e. a custom font. -/
theorem loadFont_standard_spec (st : FontManagerState) (fontId : String)
    (cfg : FontConfig)
    (hcfg : getFontConfig st fontId = some cfg)
    (hstd : cfg.isStandard = true)
    (hnc : isFontCached st fontId = false)
    (hnp : jsMapGet st.fontLoadingPromises fontId = none) :
    loadFont st fontId = (.ok ([] : Bytes), st) ∧
    ([] : Bytes).length = 0 ∧
    isFontCached (loadFont st fontId).2 fontId = false ∧
    (∀ st2 : FontManagerState, ∀ id2 : String,
      (loadFont st2 id2).2.fontCache ≠ st2.fontCache →
      ∃ cfg2, getFontConfig st2 id2 = some cfg2 ∧ cfg2.isStandard = false) := by
  have hcache : jsMapGet st.fontCache fontId = none := by
    revert hnc
    unfold isFontCached
    cases jsMapGet st.fontCache fontId <;> simp
  have hmain : loadFont st fontId = (.ok ([] : Bytes), st) := by
    simp only [loadFont, hcache, hnp, hcfg, hstd, if_true]
  refine ⟨hmain, rfl, ?_, ?_⟩
  · rw [hmain]
    unfold isFontCached
    rw [hcache]
    rfl
  · intro st2 id2 hch
    simp only [loadFont] at hch
    cases hc : jsMapGet st2.fontCache id2 with
    | some b => simp [hc] at hch
    | none =>
      simp only [hc] at hch
      cases hp : jsMapGet st2.fontLoadingPromises id2 with
      | some l => simp [hp] at hch
      | none =>
        simp only [hp] at hch
        cases hg : getFontConfig st2 id2 with
        | none => simp [hg] at hch
        | some fc =>
          simp only [hg] at hch
          by_cases hstd2 : fc.isStandard = true
          · rw [if_pos hstd2] at hch
            exact absurd rfl hch
          · exact ⟨fc, rfl, by revert hstd2; cases fc.isStandard <;> simp⟩

/-- The first built-in font configuration. -/
def helveticaConfig : FontConfig :=
  { id := "helvetica", name := "Helvetica",
    cssFamily := "Helvetica, Arial, sans-serif",
    isStandard := true, standardFont := some "Helvetica" }

/-- Witness for C10 on the pristine module state: loading the standard font
`helvetica` yields a 0-byte buffer and does not populate the cache. -/
theorem loadFont_standard_spec_witness :
    getFontConfig ⟨[], [], []⟩ "helvetica" = some helveticaConfig ∧
    helveticaConfig.isStandard = true ∧
    isFontCached ⟨[], [], []⟩ "helvetica" = false ∧
    loadFont ⟨[], [], []⟩ "helvetica" = (.ok ([] : Bytes), ⟨[], [], []⟩) ∧
    isFontCached (loadFont ⟨[], [], []⟩ "helvetica").2 "helvetica" = false := by
  refine ⟨by decide, by decide, by decide, ?_, ?_⟩
  · exact (loadFont_standard_spec ⟨[], [], []⟩ "helvetica" helveticaConfig
      (by decide) (by decide) (by decide) (by decide)).1
  · exact (loadFont_standard_spec ⟨[], [], []⟩ "helvetica" helveticaConfig
      (by decide) (by decide) (by decide) (by decide)).2.2.1

/-! ### Lemmas about JS sets and maps -/

theorem mem_jsSetAdd {α : Type} [DecidableEq α] (s : List α) (x a : α) :
    a ∈ jsSetAdd s x ↔ a ∈ s ∨ a = x := by
  unfold jsSetAdd
  split_ifs with hx
  · constructor
    · exact Or.inl
    · rintro (h | rfl)
      · exact h
      · exact hx
  · simp [List.mem_append]

theorem nodup_jsSetAdd {α : Type} [DecidableEq α] (s : List α) (x : α)
    (h : s.Nodup) : (jsSetAdd s x).Nodup := by
  unfold jsSetAdd
  split_ifs with hx
  · exact h
  · simp [List.nodup_append, h, hx]

theorem mem_foldl_jsSetAdd {α : Type} [DecidableEq α] (l acc : List α)
    (a : α) : a ∈ l.foldl jsSetAdd acc ↔ a ∈ acc ∨ a ∈ l := by
  induction l generalizing acc with
  | nil => simp
  | cons x rest ih =>
    rw [List.foldl_cons, ih, mem_jsSetAdd]
    simp [or_assoc]

theorem mem_jsSetOfList {α : Type} [DecidableEq α] (l : List α) (a : α) :
    a ∈ jsSetOfList l ↔ a ∈ l := by
  unfold jsSetOfList
  rw [mem_foldl_jsSetAdd]
  simp

theorem nodup_jsSetOfList {α : Type} [DecidableEq α] (l : List α) :
    (jsSetOfList l).Nodup := by
  have haux : ∀ (l acc : List α), acc.Nodup →
      (l.foldl jsSetAdd acc).Nodup := by
    intro l
    induction l with
    | nil => intro acc h; simpa using h
    | cons x rest ih => intro acc h; exact ih _ (nodup_jsSetAdd _ _ h)
  exact haux l [] List.nodup_nil

theorem jsMapGet_jsMapSet {κ α : Type} [BEq κ] [LawfulBEq κ]
    [DecidableEq κ] (m : List (κ × α)) (k p : κ) (v : α) :
    jsMapGet (jsMapSet m k v) p = if p = k then some v else jsMapGet m p := by
  induction m with
  | nil =>
    by_cases hpk : p = k
    · subst hpk
      simp [jsMapSet, jsMapGet]
    · have hkp : ¬k = p := fun h => hpk h.symm
      simp [jsMapSet, jsMapGet, hpk, hkp]
  | cons e rest ih =>
    by_cases hek : e.1 = k
    · rw [jsMapSet, if_pos (by simpa using hek)]
      by_cases hpk : p = k
      · subst hpk
        simp [jsMapGet]
      · have hkp : ¬k = p := fun h => hpk h.symm
        have hep : ¬e.1 = p := by rw [hek]; exact hkp
        simp [jsMapGet, hkp, hep, hpk]
    · rw [jsMapSet, if_neg (by simpa using hek)]
      by_cases hep : e.1 = p
      · have hpk : ¬p = k := by rw [← hep]; exact fun h => hek h
        simp [jsMapGet, hep, hpk]
      · rw [show jsMapGet (e :: jsMapSet rest k v) p =
            if (e.1 == p) = true then some e.2
            else jsMapGet (jsMapSet rest k v) p from rfl,
          if_neg (by simpa using hep), ih,
          show jsMapGet (e :: rest) p =
            if (e.1 == p) = true then some e.2 else jsMapGet rest p
            from rfl]
        by_cases hpk : p = k
        · rw [if_pos hpk, if_pos hpk]
        · rw [if_neg hpk, if_neg hpk, if_neg (by simpa using hep)]

/-! ### Character collection (C3) -/

/-- The characters of the texts of all TextEdit operations that use the
given font id, in recorded order. -/
def textCharsOf (fid : String) : List EditOperation → List Char
  | [] => []
  | .text t :: rest =>
    if t.style.fontId = fid then t.text.data ++ textCharsOf fid rest
    else textCharsOf fid rest
  | _ :: rest => textCharsOf fid rest

/-- The character list recorded for a font id in a collection map. -/
def charsOfMap (m : List (String × String)) (fid : String) : List Char :=
  ((jsMapGet m fid).getD "").data

theorem collect_fold_chars (operations : List EditOperation)
    (m : List (String × String)) (fid : String) (hfid : fid ≠ "")
    (c : Char) :
    c ∈ charsOfMap (operations.foldl collectStep m) fid ↔
      c ∈ charsOfMap m fid ∨ c ∈ textCharsOf fid operations := by
  induction operations generalizing m with
  | nil => simp [textCharsOf]
  | cons op rest ih =>
    rw [List.foldl_cons, ih]
    cases op with
    | text t =>
      have htc : textCharsOf fid (.text t :: rest) =
          if t.style.fontId = fid then t.text.data ++ textCharsOf fid rest
          else textCharsOf fid rest := rfl
      by_cases hcond : t.style.fontId ≠ "" ∧ t.text ≠ ""
      · rw [show collectStep m (.text t) =
            jsMapSet m t.style.fontId
              ⟨jsSetOfList (((jsMapGet m t.style.fontId).getD "")
                ++ t.text).data⟩ by
              simp only [collectStep, if_pos hcond]]
        by_cases hft : t.style.fontId = fid
        · rw [hft]
          unfold charsOfMap
          rw [jsMapGet_jsMapSet, if_pos rfl, Option.getD_some]
          rw [htc, if_pos hft, List.mem_append]
          change c ∈ jsSetOfList (((jsMapGet m fid).getD ""
            ++ t.text).data) ∨ _ ↔ _
          rw [mem_jsSetOfList, String.data_append, List.mem_append]
          tauto
        · unfold charsOfMap
          rw [jsMapGet_jsMapSet, if_neg (fun h => hft h.symm)]
          rw [htc, if_neg hft]
      · rw [show collectStep m (.text t) = m by
          simp only [collectStep, if_neg hcond]]
        rcases not_and_or.mp hcond with h1 | h2
        · have h0 : t.style.fontId = "" := not_not.mp h1
          have hne : t.style.fontId ≠ fid := by
            rw [h0]
            exact fun h => hfid h.symm
          rw [htc, if_neg hne]
        · have h0 : t.text = "" := not_not.mp h2
          by_cases hft : t.style.fontId = fid
          · rw [htc, if_pos hft, h0]
            simp
          · rw [htc, if_neg hft]
    | mask m2 =>
      rw [show collectStep m (.mask m2) = m from rfl,
        show textCharsOf fid (.mask m2 :: rest) = textCharsOf fid rest
          from rfl]
    | image i =>
      rw [show collectStep m (.image i) = m from rfl,
        show textCharsOf fid (.image i :: rest) = textCharsOf fid rest
          from rfl]
    | drawPath d =>
      rw [show collectStep m (.drawPath d) = m from rfl,
        show textCharsOf fid (.drawPath d :: rest) = textCharsOf fid rest
          from rfl]

/-- C3: the glyph set handed to the font subsetter for a collected font id
is duplicate-free and consists of exactly the code points occurring in the
texts of the TextEdit operations using that font id across the whole
export, plus space (32) and period (46). -/
theorem collectFontChars_glyphs (operations : List EditOperation)
    (fontId : String) (chars : String)
    (h : jsMapGet (collectFontChars operations) fontId = some chars)
    (hfid : fontId ≠ "") :
    (subsetGlyphList chars.data).Nodup ∧
    ∀ n : Nat, n ∈ subsetGlyphList chars.data ↔
      (n ∈ (textCharsOf fontId operations).map Char.toNat ∨
        n = 32 ∨ n = 46) := by
  have hmem : ∀ c : Char, c ∈ chars.data ↔
      c ∈ textCharsOf fontId operations := by
    intro c
    have hc := collect_fold_chars operations [] fontId hfid c
    unfold charsOfMap at hc
    rw [show collectFontChars operations = operations.foldl collectStep []
      from rfl] at h
    rw [h] at hc
    simpa [jsMapGet] using hc
  constructor
  · exact nodup_jsSetAdd _ _ (nodup_jsSetAdd _ _ (nodup_jsSetOfList _))
  · intro n
    unfold subsetGlyphList
    rw [mem_jsSetAdd, mem_jsSetAdd, mem_jsSetOfList]
    have hmap : n ∈ chars.data.map Char.toNat ↔
        n ∈ (textCharsOf fontId operations).map Char.toNat := by
      simp only [List.mem_map]
      constructor
      · rintro ⟨c, hc, rfl⟩
        exact ⟨c, (hmem c).mp hc, rfl⟩
      · rintro ⟨c, hc, rfl⟩
        exact ⟨c, (hmem c).mpr hc, rfl⟩
    rw [hmap]
    tauto

/-- The text style used by the C3 witness operations. -/
def wStyleF1 : TextStyle :=
  { fontId := "f1", fontSize := 12, fontWeight := "normal",
    fontStyle := "normal", color := "#000000", align := "left" }

/-- A TextEdit operation with text "ab" in font "f1". -/
def wTextOp1 : EditOperation :=
  .text { kind := .addText, id := "t9", pageNumber := 1, text := "ab",
          x := 0, y := 0, width := 1, height := 1, style := wStyleF1 }

/-- A second TextEdit operation with overlapping text "bc" in font "f1". -/
def wTextOp2 : EditOperation :=
  .text { kind := .overlayText, id := "t10", pageNumber := 1, text := "bc",
          x := 0, y := 0, width := 1, height := 1, style := wStyleF1 }

/-- Witness for C3: two operations with texts "ab" and "bc" in font "f1"
collect to the deduplicated string "abc", whose glyph set is exactly
{97, 98, 99} plus the baseline 32 and 46. -/
theorem collectFontChars_glyphs_witness :
    jsMapGet (collectFontChars [wTextOp1, wTextOp2]) "f1" = some "abc" ∧
    ((subsetGlyphList ("abc" : String).data).Nodup ∧
    ∀ n : Nat, n ∈ subsetGlyphList ("abc" : String).data ↔
      (n ∈ (textCharsOf "f1" [wTextOp1, wTextOp2]).map Char.toNat ∨
        n = 32 ∨ n = 46)) :=
  ⟨by decide, collectFontChars_glyphs [wTextOp1, wTextOp2] "f1" "abc"
    (by decide) (by decide)⟩

/-! ### Subsetting failure fallback (C6) -/

/-- A successful `loadFont` is idempotent: calling it again on the updated
state returns the same bytes and leaves the state unchanged (the bytes are
either already cached, served by the in-flight promise, the standard-font
empty buffer, or freshly cached by the first call). -/
theorem loadFont_idem (st : FontManagerState) (fontId : String) (b : Bytes)
    (st1 : FontManagerState) (h : loadFont st fontId = (.ok b, st1)) :
    loadFont st1 fontId = (.ok b, st1) := by
  unfold loadFont at h ⊢
  cases hc : jsMapGet st.fontCache fontId with
  | some cached =>
    simp only [hc] at h
    injection h with h1 h2
    subst h2
    injection h1 with h1
    subst h1
    simp only [hc]
  | none =>
    simp only [hc] at h
    cases hp : jsMapGet st.fontLoadingPromises fontId with
    | some loading =>
      simp only [hp] at h
      injection h with h1 h2
      subst h2
      subst h1
      simp only [hc, hp]
    | none =>
      simp only [hp] at h
      cases hg : getFontConfig st fontId with
      | none =>
        simp [hg] at h
      | some cfg =>
        simp only [hg] at h
        by_cases hstd : cfg.isStandard = true
        · rw [if_pos hstd] at h
          injection h with h1 h2
          subst h2
          injection h1 with h1
          subst h1
          simp only [hc, hp, hg]
          rw [if_pos hstd]
        · rw [if_neg hstd] at h
          cases hb : cfg.blob with
          | some bb =>
            simp only [hb] at h
            injection h with h1 h2
            injection h1 with h1
            subst h1
            subst h2
            dsimp only
            rw [show jsMapGet (jsMapSet st.fontCache fontId bb) fontId
                = some bb by rw [jsMapGet_jsMapSet, if_pos rfl]]
          | none =>
            cases hl : cfg.blobLoader with
            | some bb =>
              simp only [hb, hl] at h
              injection h with h1 h2
              injection h1 with h1
              subst h1
              subst h2
              dsimp only
              rw [show jsMapGet (jsMapSet
                  (setCustomFontBlob st fontId bb).fontCache fontId bb)
                  fontId = some bb by rw [jsMapGet_jsMapSet, if_pos rfl]]
            | none =>
              simp [hb, hl] at h

/-- The fallback path embeds the full reloaded binary when pdf-lib accepts
it, logging the degradation. -/
theorem embedFontFallback_full (env : PdfEnv) (st1 : FontManagerState)
    (fontId : String) (b : Bytes)
    (hload : loadFont st1 fontId = (.ok b, st1))
    (hemb : env.embedOk b = true) :
    embedFontFallback env st1 fontId =
      (some (.custom b), st1,
        [.subsetFailed fontId, .fallbackFull fontId]) := by
  unfold embedFontFallback
  rw [hload]
  dsimp only
  rw [if_pos hemb]

/-- C6: when subsetting fails for a loaded custom font and pdf-lib accepts
the full binary, the embedding loop embeds the full, unsubsetted binary for
that font id, logs the degradation, continues with the remaining entries,
and changes no other font id's entry. -/
theorem subsetting_failure_fallback (env : PdfEnv) (st : FontManagerState)
    (fontId : String) (chars : String) (cfg : FontConfig) (b : Bytes)
    (st1 : FontManagerState)
    (hcfg : getFontConfig st fontId = some cfg)
    (hns : (cfg.isStandard && cfg.standardFont.isSome) = false)
    (hload : loadFont st fontId = (.ok b, st1))
    (hsub : env.subsetWrite b (subsetGlyphList chars.data) = none)
    (hemb : env.embedOk b = true) :
    embedOneFont env st fontId chars =
      (some (.custom b), st1,
        [.subsetFailed fontId, .fallbackFull fontId]) ∧
    (∀ (fonts : EmbeddedFontMap) (rest : List (String × String)),
      embedFontsPass env st fonts ((fontId, chars) :: rest) =
        ((embedFontsPass env st1
            (jsMapSet fonts fontId (.custom b)) rest).1,
         (embedFontsPass env st1
            (jsMapSet fonts fontId (.custom b)) rest).2.1,
         [.subsetFailed fontId, .fallbackFull fontId] ++
           (embedFontsPass env st1
              (jsMapSet fonts fontId (.custom b)) rest).2.2)) ∧
    (∀ (fonts : EmbeddedFontMap) (q : String), q ≠ fontId →
      jsMapGet (jsMapSet fonts fontId (EmbeddedFont.custom b)) q =
        jsMapGet fonts q) := by
  have hone : embedOneFont env st fontId chars =
      (some (.custom b), st1,
        [.subsetFailed fontId, .fallbackFull fontId]) := by
    unfold embedOneFont
    rw [hcfg]
    dsimp only
    rw [hns, if_neg Bool.false_ne_true, hload]
    dsimp only
    rw [show subsetFontWithFonteditor env b chars = none from hsub]
    exact embedFontFallback_full env st1 fontId b
      (loadFont_idem st fontId b st1 hload) hemb
  refine ⟨hone, ?_, ?_⟩
  · intro fonts rest
    simp only [embedFontsPass, hone]
  · intro fonts q hq
    rw [jsMapGet_jsMapSet, if_neg hq]

/-- The custom font configuration used by the C6 witness. -/
def wCfgC6 : FontConfig :=
  { id := "local-x", name := "Local X", cssFamily := "X",
    blob := some [1, 2, 3] }

/-- The module state of the C6 witness: one registered custom font. -/
def wStC6 : FontManagerState := ⟨[wCfgC6], [], []⟩

/-- The state after the witness load: the binary is cached. -/
def wSt1C6 : FontManagerState := ⟨[wCfgC6], [("local-x", [1, 2, 3])], []⟩

/-- An environment whose subsetter always throws and whose `embedFont`
always succeeds. -/
def wEnvC6 : PdfEnv := ⟨fun _ _ => none, fun _ => true⟩

/-- Witness for C6: with a failing subsetter, the single-entry pass embeds
the full 3-byte binary for `local-x`, logs the degradation, finishes the
rest of the pass, and leaves other ids unmapped. -/
theorem subsetting_failure_fallback_witness :
    embedOneFont wEnvC6 wStC6 "local-x" "a" =
      (some (.custom [1, 2, 3]), wSt1C6,
        [.subsetFailed "local-x", .fallbackFull "local-x"]) ∧
    embedFontsPass wEnvC6 wStC6 [] [("local-x", "a")] =
      ([("local-x", EmbeddedFont.custom [1, 2, 3])], wSt1C6,
        [.subsetFailed "local-x", .fallbackFull "local-x"]) ∧
    jsMapGet (jsMapSet [] "local-x" (EmbeddedFont.custom [1, 2, 3]))
      "other" = none := by
  have h := subsetting_failure_fallback wEnvC6 wStC6 "local-x" "a" wCfgC6
    [1, 2, 3] wSt1C6 (by decide) (by decide) (by decide) rfl rfl
  refine ⟨h.1, ?_, ?_⟩
  · rw [h.2.1 [] []]
    decide
  · rw [h.2.2 [] "other" (by decide)]
    rfl

/-! ### Page grouping lemmas (C5) -/

theorem jsMapGet_append_left {κ α : Type} [BEq κ] (g g2 : List (κ × α))
    (p : κ) (v : α) (h : jsMapGet g p = some v) :
    jsMapGet (g ++ g2) p = some v := by
  induction g with
  | nil => simp [jsMapGet] at h
  | cons e rest ih =>
    rw [show jsMapGet (e :: rest) p =
      if (e.1 == p) = true then some e.2 else jsMapGet rest p from rfl] at h
    rw [List.cons_append,
      show jsMapGet (e :: (rest ++ g2)) p =
        if (e.1 == p) = true then some e.2 else jsMapGet (rest ++ g2) p
        from rfl]
    by_cases he : (e.1 == p) = true
    · rw [if_pos he] at h
      rw [if_pos he]
      exact h
    · rw [if_neg he] at h
      rw [if_neg he]
      exact ih h

theorem jsMapGet_append_right {κ α : Type} [BEq κ] (g g2 : List (κ × α))
    (p : κ) (h : jsMapGet g p = none) :
    jsMapGet (g ++ g2) p = jsMapGet g2 p := by
  induction g with
  | nil => rfl
  | cons e rest ih =>
    rw [show jsMapGet (e :: rest) p =
      if (e.1 == p) = true then some e.2 else jsMapGet rest p from rfl] at h
    rw [List.cons_append,
      show jsMapGet (e :: (rest ++ g2)) p =
        if (e.1 == p) = true then some e.2 else jsMapGet (rest ++ g2) p
        from rfl]
    by_cases he : (e.1 == p) = true
    · rw [if_pos he] at h
      exact absurd h (by simp)
    · rw [if_neg he] at h
      rw [if_neg he]
      exact ih h

theorem jsMapGet_eq_none_iff {κ α : Type} [BEq κ] [LawfulBEq κ]
    (m : List (κ × α)) (p : κ) :
    jsMapGet m p = none ↔ p ∉ m.map Prod.fst := by
  induction m with
  | nil => simp [jsMapGet]
  | cons e rest ih =>
    rw [show jsMapGet (e :: rest) p =
      if (e.1 == p) = true then some e.2 else jsMapGet rest p from rfl]
    by_cases he : (e.1 == p) = true
    · rw [if_pos he]
      simp only [List.map_cons, List.mem_cons]
      have : e.1 = p := by simpa using he
      simp [this]
    · rw [if_neg he]
      have : ¬e.1 = p := by simpa using he
      simp only [List.map_cons, List.mem_cons, ih]
      constructor
      · intro hnp
        rintro (h1 | h2)
        · exact this h1.symm
        · exact hnp h2
      · intro hn h2
        exact hn (Or.inr h2)

theorem jsMapSet_keys_of_mem {κ α : Type} [BEq κ] [LawfulBEq κ]
    (m : List (κ × α)) (k : κ) (v : α) (l : α)
    (h : jsMapGet m k = some l) :
    (jsMapSet m k v).map Prod.fst = m.map Prod.fst := by
  induction m with
  | nil => simp [jsMapGet] at h
  | cons e rest ih =>
    rw [show jsMapGet (e :: rest) k =
      if (e.1 == k) = true then some e.2 else jsMapGet rest k from rfl] at h
    by_cases he : (e.1 == k) = true
    · rw [jsMapSet, if_pos he]
      simp only [List.map_cons]
      have : e.1 = k := by simpa using he
      rw [this]
    · rw [jsMapSet, if_neg he]
      rw [if_neg he] at h
      simp only [List.map_cons, ih h]

/-- The per-page buckets: looking up a page in the grouped record yields
exactly the operations with that page number, in their recorded order. -/
theorem jsMapGet_group_fold (operations : List EditOperation)
    (g : List (ℤ × List EditOperation)) (p : ℤ) :
    jsMapGet (operations.foldl groupStep g) p =
      match jsMapGet g p with
      | some l =>
        some (l ++ operations.filter (fun op => op.pageNumber == p))
      | none =>
        if operations.filter (fun op => op.pageNumber == p) = [] then none
        else some (operations.filter (fun op => op.pageNumber == p)) := by
  induction operations generalizing g with
  | nil =>
    cases hg : jsMapGet g p with
    | some l => simp [hg]
    | none => simp [hg]
  | cons op rest ih =>
    rw [List.foldl_cons, ih]
    by_cases hqp : op.pageNumber = p
    · have hfil : (op :: rest).filter (fun o => o.pageNumber == p) =
          op :: rest.filter (fun o => o.pageNumber == p) := by
        rw [List.filter_cons, if_pos (by simpa using hqp)]
      cases hg : jsMapGet g p with
      | some l =>
        have hgq : jsMapGet g op.pageNumber = some l := by rw [hqp]; exact hg
        rw [show groupStep g op =
          jsMapSet g op.pageNumber (l ++ [op]) by
            unfold groupStep; rw [hgq]]
        rw [show jsMapGet (jsMapSet g op.pageNumber (l ++ [op])) p
            = some (l ++ [op]) by
          rw [jsMapGet_jsMapSet, if_pos hqp.symm]]
        rw [hfil]
        simp
      | none =>
        have hgq : jsMapGet g op.pageNumber = none := by rw [hqp]; exact hg
        rw [show groupStep g op = g ++ [(op.pageNumber, [op])] by
          unfold groupStep; rw [hgq]]
        rw [jsMapGet_append_right g _ p hg]
        rw [show jsMapGet [(op.pageNumber, [op])] p = some [op] by
          rw [show jsMapGet [(op.pageNumber, [op])] p =
            if (op.pageNumber == p) = true then some [op] else none
            from rfl, if_pos (by simpa using hqp)]]
        rw [hfil]
        simp
    · have hfil : (op :: rest).filter (fun o => o.pageNumber == p) =
          rest.filter (fun o => o.pageNumber == p) := by
        rw [List.filter_cons, if_neg (by simpa using hqp)]
      have hget : jsMapGet (groupStep g op) p = jsMapGet g p := by
        unfold groupStep
        cases hgq : jsMapGet g op.pageNumber with
        | some l =>
          rw [jsMapGet_jsMapSet, if_neg (fun hh => hqp hh.symm)]
        | none =>
          cases hg : jsMapGet g p with
          | some v => exact jsMapGet_append_left g _ p v hg
          | none =>
            rw [jsMapGet_append_right g _ p hg]
            rw [show jsMapGet [(op.pageNumber, [op])] p =
              if (op.pageNumber == p) = true then some [op] else none
              from rfl, if_neg (by simpa using hqp)]
      rw [hget, hfil]

/-- The grouped record of the whole operation list. -/
theorem jsMapGet_groupOperationsByPage (operations : List EditOperation)
    (p : ℤ) :
    jsMapGet (groupOperationsByPage operations) p =
      if operations.filter (fun op => op.pageNumber == p) = [] then none
      else some (operations.filter (fun op => op.pageNumber == p)) := by
  unfold groupOperationsByPage
  rw [jsMapGet_group_fold]
  rfl

/-- The grouped record has pairwise distinct page keys. -/
theorem group_keys_nodup (operations : List EditOperation) :
    ((groupOperationsByPage operations).map Prod.fst).Nodup := by
  have haux : ∀ (ops : List EditOperation)
      (g : List (ℤ × List EditOperation)),
      (g.map Prod.fst).Nodup → ((ops.foldl groupStep g).map Prod.fst).Nodup := by
    intro ops
    induction ops with
    | nil => intro g hg; simpa using hg
    | cons op rest ih =>
      intro g hg
      rw [List.foldl_cons]
      apply ih
      unfold groupStep
      cases hgq : jsMapGet g op.pageNumber with
      | some l =>
        rw [jsMapSet_keys_of_mem g op.pageNumber (l ++ [op]) l hgq]
        exact hg
      | none =>
        have hnm : op.pageNumber ∉ g.map Prod.fst :=
          (jsMapGet_eq_none_iff g op.pageNumber).mp hgq
        simp [List.nodup_append, hg, hnm]
  exact haux operations [] (by simp)

theorem mem_iff_jsMapGet {κ α : Type} [BEq κ] [LawfulBEq κ]
    (m : List (κ × α)) (hnd : (m.map Prod.fst).Nodup) (p : κ) (l : α) :
    (p, l) ∈ m ↔ jsMapGet m p = some l := by
  induction m with
  | nil => simp [jsMapGet]
  | cons e rest ih =>
    rw [List.map_cons, List.nodup_cons] at hnd
    rw [show jsMapGet (e :: rest) p =
      if (e.1 == p) = true then some e.2 else jsMapGet rest p from rfl]
    by_cases he : (e.1 == p) = true
    · have hep : e.1 = p := by simpa using he
      rw [if_pos he]
      constructor
      · intro hm
        rcases List.mem_cons.mp hm with h1 | h2
        · rw [← h1]
        · exfalso
          apply hnd.1
          rw [hep]
          exact List.mem_map.mpr ⟨(p, l), h2, rfl⟩
      · intro hv
        injection hv with hv
        exact List.mem_cons.mpr (Or.inl (by rw [← hep, ← hv]))
    · have hep : ¬e.1 = p := by simpa using he
      rw [if_neg he, ← ih hnd.2]
      constructor
      · intro hm
        rcases List.mem_cons.mp hm with h1 | h2
        · exfalso
          apply hep
          rw [← h1]
        · exact h2
      · exact fun h2 => List.mem_cons_of_mem e h2

/-- Membership in the sorted page entries coincides with a grouped-record
lookup. -/
theorem mem_pageEntries_iff (operations : List EditOperation) (p : ℤ)
    (l : List EditOperation) :
    (p, l) ∈ pageEntries operations ↔
      jsMapGet (groupOperationsByPage operations) p = some l := by
  rw [show pageEntries operations = (groupOperationsByPage
      operations).insertionSort (fun a b => a.1 ≤ b.1) from rfl]
  rw [(List.perm_insertionSort (fun a b => a.1 ≤ b.1)
    (groupOperationsByPage operations)).mem_iff]
  exact mem_iff_jsMapGet _ (group_keys_nodup operations) p l

/-- The sorted page entries keep the pairwise distinct keys. -/
theorem pageEntries_keys_nodup (operations : List EditOperation) :
    ((pageEntries operations).map Prod.fst).Nodup := by
  have hperm := (List.perm_insertionSort (fun a b => a.1 ≤ b.1)
    (groupOperationsByPage operations)).map Prod.fst
  exact (hperm.nodup_iff).mpr (group_keys_nodup operations)

/-! ### Page loop lemmas (C5, C7, C8) -/

theorem getPage_ok_iff (doc : PDFDocument) (i : ℤ) (pg : PDFPage) :
    getPage doc i = .ok pg ↔ 0 ≤ i ∧ doc.pages.get? i.toNat = some pg := by
  unfold getPage
  by_cases h0 : 0 ≤ i
  · rw [if_pos h0]
    cases hg : doc.pages.get? i.toNat with
    | some q =>
      constructor
      · intro h
        injection h with h
        exact ⟨h0, by rw [h]⟩
      · rintro ⟨-, h⟩
        injection h with h
        rw [h]
    | none =>
      constructor
      · intro h
        exact absurd h (by simp)
      · rintro ⟨-, h⟩
        exact absurd h (by simp)
  · rw [if_neg h0]
    constructor
    · intro h
      exact absurd h (by simp)
    · rintro ⟨h1, -⟩
      exact absurd h1 h0

theorem setPage_length (doc : PDFDocument) (i : ℤ) (pg : PDFPage) :
    (setPage doc i pg).pages.length = doc.pages.length := by
  unfold setPage
  split_ifs
  · exact List.length_set doc.pages i.toNat pg
  · rfl

theorem setPage_get_same (doc : PDFDocument) (i : ℤ) (pg : PDFPage)
    (h0 : 0 ≤ i) (hlt : i.toNat < doc.pages.length) :
    (setPage doc i pg).pages.get? i.toNat = some pg := by
  unfold setPage
  rw [if_pos h0]
  show (doc.pages.set i.toNat pg).get? i.toNat = some pg
  rw [List.get?_set, if_pos rfl]
  cases hg : doc.pages.get? i.toNat with
  | none =>
    exfalso
    have := List.get?_eq_none.mp hg
    omega
  | some q => rfl

theorem setPage_get_other (doc : PDFDocument) (i j : ℤ) (pg : PDFPage)
    (hij : i ≠ j) (h0i : 0 ≤ i) (h0j : 0 ≤ j) :
    (setPage doc i pg).pages.get? j.toNat = doc.pages.get? j.toNat := by
  unfold setPage
  rw [if_pos h0i]
  show (doc.pages.set i.toNat pg).get? j.toNat = doc.pages.get? j.toNat
  rw [List.get?_set, if_neg (by omega)]

/-- Pages whose index is touched by no entry are unchanged by the loop. -/
theorem applyOperationsToDoc_untouched (fonts : EmbeddedFontMap) (ch : ℚ)
    (entries : List (ℤ × List EditOperation)) :
    ∀ (doc doc' : PDFDocument),
    applyOperationsToDoc fonts ch entries doc = .ok doc' →
    ∀ i : ℤ, 0 ≤ i → (∀ e ∈ entries, e.1 - 1 ≠ i) →
    doc'.pages.get? i.toNat = doc.pages.get? i.toNat := by
  induction entries with
  | nil =>
    intro doc doc' h i h0 hni
    injection h with h
    rw [← h]
  | cons e rest ih =>
    intro doc doc' h i h0 hni
    obtain ⟨q, lq⟩ := e
    unfold applyOperationsToDoc at h
    cases hgp : getPage doc (q - 1) with
    | error msg =>
      simp only [hgp] at h
      exact absurd h (by simp)
    | ok pg =>
      simp only [hgp] at h
      cases hap : applyOpsToPage fonts ch pg.height lq pg with
      | error msg =>
        simp only [hap] at h
        exact absurd h (by simp)
      | ok pg1 =>
        simp only [hap] at h
        have hq0 : 0 ≤ q - 1 := ((getPage_ok_iff doc (q - 1) pg).mp hgp).1
        have hqi : q - 1 ≠ i := hni (q, lq) (List.mem_cons_self _ _)
        have hrec := ih (setPage doc (q - 1) pg1) doc' h i h0
          (fun e he => hni e (List.mem_cons_of_mem _ he))
        rw [hrec, setPage_get_other doc (q - 1) i pg1 hqi hq0 h0]

/-- On a successful loop with pairwise distinct page keys, every entry's
operations were applied to the page at `pageNumber - 1`, and the resulting
page is stored at that index of the final document. -/
theorem applyOperationsToDoc_pages (fonts : EmbeddedFontMap) (ch : ℚ)
    (entries : List (ℤ × List EditOperation)) :
    ∀ (doc doc' : PDFDocument), (entries.map Prod.fst).Nodup →
    applyOperationsToDoc fonts ch entries doc = .ok doc' →
    ∀ p l, (p, l) ∈ entries →
    ∃ pg pg1, getPage doc (p - 1) = .ok pg ∧
      applyOpsToPage fonts ch pg.height l pg = .ok pg1 ∧
      0 ≤ p - 1 ∧ doc'.pages.get? (p - 1).toNat = some pg1 := by
  induction entries with
  | nil =>
    intro doc doc' hnd h p l hm
    simp at hm
  | cons e rest ih =>
    intro doc doc' hnd h p l hm
    obtain ⟨q, lq⟩ := e
    rw [List.map_cons, List.nodup_cons] at hnd
    unfold applyOperationsToDoc at h
    cases hgp : getPage doc (q - 1) with
    | error msg =>
      simp only [hgp] at h
      exact absurd h (by simp)
    | ok pg =>
      simp only [hgp] at h
      cases hap : applyOpsToPage fonts ch pg.height lq pg with
      | error msg =>
        simp only [hap] at h
        exact absurd h (by simp)
      | ok pg1 =>
        simp only [hap] at h
        have hq0 : 0 ≤ q - 1 := ((getPage_ok_iff doc (q - 1) pg).mp hgp).1
        have hqlt : (q - 1).toNat < doc.pages.length := by
          have h2 := ((getPage_ok_iff doc (q - 1) pg).mp hgp).2
          by_contra hcon
          rw [List.get?_eq_none.mpr (by omega)] at h2
          exact absurd h2 (by simp)
        rcases List.mem_cons.mp hm with h1 | h2
        · injection h1 with hp hl
          subst hp
          subst hl
          refine ⟨pg, pg1, hgp, hap, hq0, ?_⟩
          have hrest : ∀ e ∈ rest, e.1 - 1 ≠ p - 1 := by
            intro e he heq
            apply hnd.1
            have he1 : e.1 = p := by omega
            rw [← he1]
            exact List.mem_map.mpr ⟨e, he, rfl⟩
          rw [applyOperationsToDoc_untouched fonts ch rest _ doc' h
            (p - 1) hq0 hrest]
          exact setPage_get_same doc (p - 1) pg1 hq0 hqlt
        · obtain ⟨pg', pg1', hgp', hap', h0', hget'⟩ :=
            ih (setPage doc (q - 1) pg1) doc' hnd.2 h p l h2
          have hpq : p ≠ q := by
            intro heq
            apply hnd.1
            rw [← heq]
            exact List.mem_map.mpr ⟨(p, l), h2, rfl⟩
          have hgp'' : getPage doc (p - 1) = .ok pg' := by
            rw [getPage_ok_iff] at hgp' ⊢
            refine ⟨hgp'.1, ?_⟩
            rw [← setPage_get_other doc (q - 1) (p - 1) pg1 (by omega)
              hq0 hgp'.1]
            exact hgp'.2
          exact ⟨pg', pg1', hgp'', hap', h0', hget'⟩

/-- C5: on a successful export loop, looking up any page number with
operations in the grouped record yields exactly the operations of the input
list with that page number in their original recorded order, and those
operations are applied — in that order — to the document page at 0-indexed
position `pageNumber - 1`, whose updated content is stored back at the same
position. -/
theorem pipeline_page_grouping (operations : List EditOperation)
    (fonts : EmbeddedFontMap) (ch : ℚ) (doc doc' : PDFDocument)
    (h : applyOperationsToDoc fonts ch (pageEntries operations) doc
      = .ok doc') :
    ∀ p : ℤ, operations.filter (fun op => op.pageNumber == p) ≠ [] →
      jsMapGet (groupOperationsByPage operations) p =
        some (operations.filter (fun op => op.pageNumber == p)) ∧
      ∃ pg pg1, getPage doc (p - 1) = .ok pg ∧
        applyOpsToPage fonts ch pg.height
          (operations.filter (fun op => op.pageNumber == p)) pg = .ok pg1 ∧
        0 ≤ p - 1 ∧ doc'.pages.get? (p - 1).toNat = some pg1 := by
  intro p hne
  have hget : jsMapGet (groupOperationsByPage operations) p =
      some (operations.filter (fun op => op.pageNumber == p)) := by
    rw [jsMapGet_groupOperationsByPage, if_neg hne]
  refine ⟨hget, ?_⟩
  have hmem : (p, operations.filter (fun op => op.pageNumber == p))
      ∈ pageEntries operations :=
    (mem_pageEntries_iff operations p _).mpr hget
  exact applyOperationsToDoc_pages fonts ch (pageEntries operations)
    doc doc' (pageEntries_keys_nodup operations) h p _ hmem

/-- A fontless TextEdit on page 2 (nothing drawn: no font resolves). -/
def wT1 : EditOperation :=
  .text { kind := .addText, id := "a1", pageNumber := 2, text := "x",
          x := 0, y := 0, width := 1, height := 1, style := wStyleF1 }

/-- A fontless TextEdit on page 1. -/
def wT2 : EditOperation :=
  .text { kind := .addText, id := "a2", pageNumber := 1, text := "y",
          x := 0, y := 0, width := 1, height := 1, style := wStyleF1 }

/-- A second fontless TextEdit on page 2, recorded after `wT1`. -/
def wT3 : EditOperation :=
  .text { kind := .addText, id := "a3", pageNumber := 2, text := "z",
          x := 0, y := 0, width := 1, height := 1, style := wStyleF1 }

/-- A two-page document for the C5 witness. -/
def wDoc5 : PDFDocument := ⟨[⟨700, []⟩, ⟨800, []⟩]⟩

/-- Witness for C5: with operations recorded on pages 2, 1, 2, the page-2
bucket is exactly `[wT1, wT3]` in recorded order and is applied to the page
at index 1. -/
theorem pipeline_page_grouping_witness :
    applyOperationsToDoc [] 100 (pageEntries [wT1, wT2, wT3]) wDoc5
      = .ok wDoc5 ∧
    [wT1, wT2, wT3].filter (fun op => op.pageNumber == (2 : ℤ))
      = [wT1, wT3] ∧
    (jsMapGet (groupOperationsByPage [wT1, wT2, wT3]) 2 =
        some ([wT1, wT2, wT3].filter (fun op => op.pageNumber == (2 : ℤ))) ∧
      ∃ pg pg1, getPage wDoc5 ((2 : ℤ) - 1) = .ok pg ∧
        applyOpsToPage [] 100 pg.height
          ([wT1, wT2, wT3].filter (fun op => op.pageNumber == (2 : ℤ))) pg
          = .ok pg1 ∧
        0 ≤ (2 : ℤ) - 1 ∧
        wDoc5.pages.get? ((2 : ℤ) - 1).toNat = some pg1) := by
  have hA : applyOperationsToDoc [] 100 (pageEntries [wT1, wT2, wT3]) wDoc5
      = .ok wDoc5 := by decide
  exact ⟨hA, by decide,
    pipeline_page_grouping [wT1, wT2, wT3] [] 100 wDoc5 wDoc5 hA 2
      (by decide)⟩

/-! ### Image format policy (C7) -/

/-- Whether an operation is an Image whose data prefix identifies neither
PNG nor JPEG — the case `applyImageOperation` throws on. -/
def unsupportedImage : EditOperation → Bool
  | .image i =>
    !(jsStartsWith i.imageData "data:image/png"
      || jsStartsWith i.imageData "data:image/jpeg"
      || jsStartsWith i.imageData "data:image/jpg")
  | _ => false

theorem applyOperation_unsupported (op : EditOperation)
    (h : unsupportedImage op = true) (page : PDFPage)
    (fonts : EmbeddedFontMap) (ch ph : ℚ) :
    applyOperation op page fonts ch ph = .error "不支持的图片格式" := by
  cases op with
  | mask m => exact absurd h Bool.false_ne_true
  | text t => exact absurd h Bool.false_ne_true
  | drawPath d => exact absurd h Bool.false_ne_true
  | image i =>
    rw [show unsupportedImage (.image i) =
      !(jsStartsWith i.imageData "data:image/png"
        || jsStartsWith i.imageData "data:image/jpeg"
        || jsStartsWith i.imageData "data:image/jpg") from rfl,
      Bool.not_eq_true'] at h
    rw [Bool.or_eq_false_iff, Bool.or_eq_false_iff] at h
    obtain ⟨⟨h1, h2⟩, h3⟩ := h
    show applyImageOperation i page ch ph = _
    unfold applyImageOperation
    rw [if_neg (by rw [h1]; exact Bool.false_ne_true),
      if_neg (by rw [h2, h3]; simp)]

theorem applyOperation_ok (op : EditOperation)
    (h : unsupportedImage op = false) (page : PDFPage)
    (fonts : EmbeddedFontMap) (ch ph : ℚ) :
    ∃ page1, applyOperation op page fonts ch ph = .ok page1 := by
  cases op with
  | mask m => exact ⟨_, rfl⟩
  | text t => exact ⟨_, rfl⟩
  | drawPath d => exact ⟨_, rfl⟩
  | image i =>
    rw [show unsupportedImage (.image i) =
      !(jsStartsWith i.imageData "data:image/png"
        || jsStartsWith i.imageData "data:image/jpeg"
        || jsStartsWith i.imageData "data:image/jpg") from rfl,
      Bool.not_eq_false'] at h
    show ∃ page1, applyImageOperation i page ch ph = .ok page1
    unfold applyImageOperation
    by_cases h1 : jsStartsWith i.imageData "data:image/png" = true
    · rw [if_pos h1]
      exact ⟨_, rfl⟩
    · rw [if_neg h1]
      have h2 : (jsStartsWith i.imageData "data:image/jpeg"
          || jsStartsWith i.imageData "data:image/jpg") = true := by
        rcases Bool.or_eq_true_iff.mp h with hab | hc
        · rcases Bool.or_eq_true_iff.mp hab with ha | hb
          · exact absurd ha h1
          · rw [hb]
            simp
        · rw [hc]
          simp
      rw [if_pos h2]
      exact ⟨_, rfl⟩

theorem applyOpsToPage_ok (fonts : EmbeddedFontMap) (ch ph : ℚ) :
    ∀ (l : List EditOperation),
    (∀ op ∈ l, unsupportedImage op = false) →
    ∀ pg, ∃ pg1, applyOpsToPage fonts ch ph l pg = .ok pg1 := by
  intro l
  induction l with
  | nil =>
    intro _ pg
    exact ⟨pg, rfl⟩
  | cons op rest ih =>
    intro h pg
    obtain ⟨p1, hp1⟩ :=
      applyOperation_ok op (h op (List.mem_cons_self _ _)) pg fonts ch ph
    obtain ⟨p2, hp2⟩ := ih (fun o ho => h o (List.mem_cons_of_mem _ ho)) p1
    refine ⟨p2, ?_⟩
    unfold applyOpsToPage
    rw [hp1]
    exact hp2

theorem applyOpsToPage_ops_ok (fonts : EmbeddedFontMap) (ch ph : ℚ) :
    ∀ (l : List EditOperation) (pg pg1 : PDFPage),
    applyOpsToPage fonts ch ph l pg = .ok pg1 →
    ∀ op ∈ l, ∃ page page1,
      applyOperation op page fonts ch ph = .ok page1 := by
  intro l
  induction l with
  | nil =>
    intro pg pg1 h op hm
    simp at hm
  | cons o rest ih =>
    intro pg pg1 h op hm
    unfold applyOpsToPage at h
    cases ha : applyOperation o pg fonts ch ph with
    | error e =>
      simp only [ha] at h
      exact absurd h (by simp)
    | ok p1 =>
      simp only [ha] at h
      rcases List.mem_cons.mp hm with rfl | hm2
      · exact ⟨pg, p1, ha⟩
      · exact ih p1 pg1 h op hm2

theorem applyOperationsToDoc_ok (fonts : EmbeddedFontMap) (ch : ℚ) :
    ∀ (entries : List (ℤ × List EditOperation)) (doc : PDFDocument),
    (∀ e ∈ entries, 0 ≤ e.1 - 1 ∧ (e.1 - 1).toNat < doc.pages.length ∧
      ∀ op ∈ e.2, unsupportedImage op = false) →
    ∃ doc', applyOperationsToDoc fonts ch entries doc = .ok doc' := by
  intro entries
  induction entries with
  | nil =>
    intro doc _
    exact ⟨doc, rfl⟩
  | cons e rest ih =>
    intro doc h
    obtain ⟨q, lq⟩ := e
    obtain ⟨hq0, hqlt, hops⟩ := h (q, lq) (List.mem_cons_self _ _)
    obtain ⟨pg, hpg⟩ : ∃ pg, doc.pages.get? (q - 1).toNat = some pg := by
      cases hg : doc.pages.get? (q - 1).toNat with
      | none =>
        exfalso
        have := List.get?_eq_none.mp hg
        omega
      | some pg => exact ⟨pg, rfl⟩
    have hgp : getPage doc (q - 1) = .ok pg :=
      (getPage_ok_iff doc (q - 1) pg).mpr ⟨hq0, hpg⟩
    obtain ⟨pg1, hap⟩ := applyOpsToPage_ok fonts ch pg.height lq hops pg
    obtain ⟨doc', hdoc'⟩ := ih (setPage doc (q - 1) pg1) (by
      intro e2 he2
      obtain ⟨h1, h2, h3⟩ := h e2 (List.mem_cons_of_mem _ he2)
      refine ⟨h1, ?_, h3⟩
      rw [setPage_length]
      exact h2)
    refine ⟨doc', ?_⟩
    unfold applyOperationsToDoc
    rw [hgp]
    dsimp only
    rw [hap]
    exact hdoc'

/-- The default-font block never throws (the first built-in font is a
standard font). -/
theorem ensureDefaultFont_ok (env : PdfEnv) (st : FontManagerState)
    (operations : List EditOperation) (fonts : EmbeddedFontMap) :
    ∃ r, ensureDefaultFont env st operations fonts = .ok r := by
  unfold ensureDefaultFont
  by_cases h1 : fonts.length = 0 ∧ operations.length > 0
  · rw [if_pos h1]
    dsimp only
    by_cases h2 : (operations.filter (fun op => op.isTextOp)).length > 0
    · rw [if_pos h2]
      exact ⟨_, rfl⟩
    · rw [if_neg h2]
      exact ⟨_, rfl⟩
  · rw [if_neg h1]
    exact ⟨_, rfl⟩

/-- `generateEditedPDF` is the page loop run with the fonts produced by the
embedding pre-pass and the default-font block. -/
theorem generateEditedPDF_cases (env : PdfEnv) (st : FontManagerState)
    (doc : PDFDocument) (operations : List EditOperation) (ch : ℚ) :
    ∃ fonts st2,
      ensureDefaultFont env
        (embedFontsPass env st [] (collectFontChars operations)).2.1
        operations
        (embedFontsPass env st [] (collectFontChars operations)).1
        = .ok (fonts, st2) ∧
      generateEditedPDF env st doc operations ch =
        applyOperationsToDoc fonts ch (pageEntries operations) doc := by
  obtain ⟨r, hr⟩ := ensureDefaultFont_ok env
    (embedFontsPass env st [] (collectFontChars operations)).2.1 operations
    (embedFontsPass env st [] (collectFontChars operations)).1
  obtain ⟨fonts, st2⟩ := r
  refine ⟨fonts, st2, hr, ?_⟩
  simp only [generateEditedPDF]
  rw [hr]

/-- Entries of the page grouping inherit the per-operation validity
conditions. -/
theorem pageEntries_cond (operations : List EditOperation)
    (doc : PDFDocument)
    (hsupp : ∀ op ∈ operations, unsupportedImage op = false)
    (hpages : ∀ op ∈ operations, 1 ≤ op.pageNumber ∧
      (op.pageNumber - 1).toNat < doc.pages.length) :
    ∀ e ∈ pageEntries operations, 0 ≤ e.1 - 1 ∧
      (e.1 - 1).toNat < doc.pages.length ∧
      ∀ op ∈ e.2, unsupportedImage op = false := by
  intro e he
  obtain ⟨p, l⟩ := e
  have hget := (mem_pageEntries_iff operations p l).mp he
  rw [jsMapGet_groupOperationsByPage] at hget
  by_cases hne : operations.filter (fun op => op.pageNumber == p) = []
  · rw [if_pos hne] at hget
    exact absurd hget (by simp)
  · rw [if_neg hne] at hget
    injection hget with hget
    subst hget
    obtain ⟨op0, hop0⟩ := List.exists_mem_of_ne_nil _ hne
    have hop0' := List.mem_filter.mp hop0
    have hp : op0.pageNumber = p := by simpa using hop0'.2
    have hb := hpages op0 hop0'.1
    rw [hp] at hb
    refine ⟨by omega, hb.2, ?_⟩
    intro op hopf
    exact hsupp op (List.mem_filter.mp hopf).1

/-- C7: an Image operation whose data prefix identifies neither PNG nor
JPEG makes the whole export fail as one unit — `generateEditedPDF` throws
and `exportPDF` returns false with no document; conversely, when every
operation is valid (supported image formats, existing pages), the export
fully succeeds and returns the new document. -/
theorem image_format_policy (env : PdfEnv) (st : FontManagerState)
    (doc : PDFDocument) (operations : List EditOperation) (ch : ℚ) :
    ((∃ op ∈ operations, unsupportedImage op = true) →
      (∃ e, generateEditedPDF env st doc operations ch = .error e) ∧
      exportPDF env st (.ok doc) operations ch = false) ∧
    ((∀ op ∈ operations, unsupportedImage op = false) →
      (∀ op ∈ operations, 1 ≤ op.pageNumber ∧
        (op.pageNumber - 1).toNat < doc.pages.length) →
      (∃ d, generateEditedPDF env st doc operations ch = .ok d) ∧
      exportPDF env st (.ok doc) operations ch = true) := by
  obtain ⟨fonts, st2, hdef, hgen⟩ :=
    generateEditedPDF_cases env st doc operations ch
  constructor
  · rintro ⟨op, hop, hbad⟩
    cases hres : generateEditedPDF env st doc operations ch with
    | ok d =>
      exfalso
      rw [hgen] at hres
      have hfil : op ∈ operations.filter
          (fun o => o.pageNumber == op.pageNumber) :=
        List.mem_filter.mpr ⟨hop, by simp⟩
      have hne : operations.filter
          (fun o => o.pageNumber == op.pageNumber) ≠ [] := by
        intro hh
        rw [hh] at hfil
        simp at hfil
      have hget : jsMapGet (groupOperationsByPage operations)
          op.pageNumber = some (operations.filter
            (fun o => o.pageNumber == op.pageNumber)) := by
        rw [jsMapGet_groupOperationsByPage, if_neg hne]
      have hmem := (mem_pageEntries_iff operations op.pageNumber _).mpr hget
      obtain ⟨pg, pg1, hgp, hap, h0, hget'⟩ :=
        applyOperationsToDoc_pages fonts ch (pageEntries operations)
          doc d (pageEntries_keys_nodup operations) hres op.pageNumber _ hmem
      obtain ⟨page, page1, hok⟩ :=
        applyOpsToPage_ops_ok fonts ch pg.height _ pg pg1 hap op hfil
      rw [applyOperation_unsupported op hbad page fonts ch pg.height] at hok
      exact absurd hok (by simp)
    | error e =>
      refine ⟨⟨e, rfl⟩, ?_⟩
      unfold exportPDF
      dsimp only
      rw [hres]
  · intro hsupp hpages
    obtain ⟨doc', hdoc'⟩ := applyOperationsToDoc_ok fonts ch
      (pageEntries operations) doc
      (pageEntries_cond operations doc hsupp hpages)
    refine ⟨⟨doc', by rw [hgen]; exact hdoc'⟩, ?_⟩
    unfold exportPDF
    dsimp only
    rw [hgen, hdoc']

/-- An Image operation with an unsupported (GIF) data prefix. -/
def wBadImg : EditOperation :=
  .image { id := "i1", pageNumber := 1,
           imageData := "data:image/gif;base64,AAAA",
           x := 0, y := 0, width := 1, height := 1, rotation := 0 }

/-- Witness for C7: a single GIF image makes the export fail and
`exportPDF` return false, while a valid operation set (one text operation
on an existing page) succeeds with `exportPDF` true. -/
theorem image_format_policy_witness :
    (∃ op ∈ [wBadImg], unsupportedImage op = true) ∧
    ((∃ e, generateEditedPDF wEnvC6 wStC6 wDoc5 [wBadImg] 100 = .error e) ∧
      exportPDF wEnvC6 wStC6 (.ok wDoc5) [wBadImg] 100 = false) ∧
    ((∃ d, generateEditedPDF wEnvC6 wStC6 wDoc5 [wT2] 100 = .ok d) ∧
      exportPDF wEnvC6 wStC6 (.ok wDoc5) [wT2] 100 = true) := by
  refine ⟨⟨wBadImg, by decide, by decide⟩, ?_, ?_⟩
  · exact (image_format_policy wEnvC6 wStC6 wDoc5 [wBadImg] 100).1
      ⟨wBadImg, by decide, by decide⟩
  · exact (image_format_policy wEnvC6 wStC6 wDoc5 [wT2] 100).2
      (by decide) (by decide)

/-! ### No-resolvable-font fallback (C8) -/

/-- With a single embedded font, the text font lookup always yields that
font: by its own id, or as the first value of the map. -/
theorem resolveTextFont_single (k : String) (f : EmbeddedFont)
    (fid : String) : resolveTextFont [(k, f)] fid = some f := by
  unfold resolveTextFont
  by_cases h : (k == fid) = true
  · rw [show jsMapGet [(k, f)] fid =
      if (k == fid) = true then some f else none from rfl, if_pos h]
  · rw [show jsMapGet [(k, f)] fid =
      if (k == fid) = true then some f else none from rfl, if_neg h]
    rfl

/-- When nothing was embedded and text operations exist, the default-font
block embeds the first built-in font, standard Helvetica. -/
theorem ensureDefaultFont_fallback (env : PdfEnv) (st : FontManagerState)
    (operations : List EditOperation)
    (htext : operations.filter (fun op => op.isTextOp) ≠ []) :
    ensureDefaultFont env st operations [] =
      .ok ([("helvetica", .standard "Helvetica")], st) := by
  unfold ensureDefaultFont
  have hops : operations.length > 0 := by
    cases operations with
    | nil => exact absurd rfl htext
    | cons a l => simp
  rw [if_pos ⟨rfl, hops⟩]
  dsimp only
  rw [if_pos (List.length_pos.mpr htext)]
  rfl

/-- C8: when the embedding pre-pass resolves no font at all (every
requested font id unknown or its binary rejected) but text operations
exist, the compositor falls back to the first entry of the built-in font
list — standard Helvetica; every TextEdit, whatever its own font id, is
drawn with that fallback font; and the export still completes successfully
without throwing. -/
theorem no_font_fallback (env : PdfEnv) (st : FontManagerState)
    (doc : PDFDocument) (operations : List EditOperation) (ch : ℚ)
    (hpass : (embedFontsPass env st []
      (collectFontChars operations)).1 = [])
    (htext : operations.filter (fun op => op.isTextOp) ≠ [])
    (hsupp : ∀ op ∈ operations, unsupportedImage op = false)
    (hpages : ∀ op ∈ operations, 1 ≤ op.pageNumber ∧
      (op.pageNumber - 1).toNat < doc.pages.length) :
    FONTS.head? = some helveticaConfig ∧
    ensureDefaultFont env
        (embedFontsPass env st [] (collectFontChars operations)).2.1
        operations
        (embedFontsPass env st [] (collectFontChars operations)).1 =
      .ok ([(helveticaConfig.id, .standard "Helvetica")],
        (embedFontsPass env st [] (collectFontChars operations)).2.1) ∧
    (∀ (t : TextEditOperation) (page : PDFPage) (ch2 ph2 : ℚ),
      applyTextOperation t page
          [(helveticaConfig.id, .standard "Helvetica")] ch2 ph2 =
        { page with drawn := page.drawn ++
          [.drawText t.text (t.x * (ph2 / ch2))
            (ph2 - t.y * (ph2 / ch2)
              - (0.85 : ℚ) * (t.style.fontSize * (ph2 / ch2)))
            (t.style.fontSize * (ph2 / ch2)) (.standard "Helvetica")
            (parseColor t.style.color)] }) ∧
    (∃ d, generateEditedPDF env st doc operations ch = .ok d) ∧
    exportPDF env st (.ok doc) operations ch = true := by
  have hdef : ensureDefaultFont env
      (embedFontsPass env st [] (collectFontChars operations)).2.1
      operations
      (embedFontsPass env st [] (collectFontChars operations)).1 =
      .ok ([(helveticaConfig.id, .standard "Helvetica")],
        (embedFontsPass env st [] (collectFontChars operations)).2.1) := by
    rw [hpass]
    exact ensureDefaultFont_fallback env _ operations htext
  have hgen : generateEditedPDF env st doc operations ch =
      applyOperationsToDoc [(helveticaConfig.id, .standard "Helvetica")]
        ch (pageEntries operations) doc := by
    simp only [generateEditedPDF]
    rw [hdef]
  obtain ⟨doc', hdoc'⟩ := applyOperationsToDoc_ok
    [(helveticaConfig.id, .standard "Helvetica")] ch
    (pageEntries operations) doc
    (pageEntries_cond operations doc hsupp hpages)
  refine ⟨rfl, hdef, ?_, ⟨doc', by rw [hgen]; exact hdoc'⟩, ?_⟩
  · intro t page ch2 ph2
    exact applyTextOperation_draws t page
      [(helveticaConfig.id, .standard "Helvetica")] ch2 ph2
      (.standard "Helvetica") (resolveTextFont_single _ _ _)
  · unfold exportPDF
    dsimp only
    rw [hgen, hdoc']

/-- The text style of the C8 witness, requesting the corrupt custom font. -/
def wStyleLocal : TextStyle :=
  { fontId := "local-x", fontSize := 10, fontWeight := "normal",
    fontStyle := "normal", color := "#000000", align := "left" }

/-- A TextEdit requesting the corrupt custom font. -/
def wT4 : EditOperation :=
  .text { kind := .addText, id := "c8", pageNumber := 1, text := "h",
          x := 0, y := 0, width := 1, height := 1, style := wStyleLocal }

/-- An environment whose subsetter throws and whose `embedFont` rejects
every binary (a corrupt font). -/
def wEnvC8 : PdfEnv := ⟨fun _ _ => none, fun _ => false⟩

/-- Witness for C8: with a corrupt custom font binary the pre-pass embeds
nothing, the default-font block embeds standard Helvetica, and the export
succeeds. -/
theorem no_font_fallback_witness :
    (embedFontsPass wEnvC8 wStC6 [] (collectFontChars [wT4])).1 = [] ∧
    [wT4].filter (fun op => op.isTextOp) ≠ [] ∧
    ensureDefaultFont wEnvC8
        (embedFontsPass wEnvC8 wStC6 [] (collectFontChars [wT4])).2.1 [wT4]
        (embedFontsPass wEnvC8 wStC6 [] (collectFontChars [wT4])).1 =
      .ok ([(helveticaConfig.id, .standard "Helvetica")],
        (embedFontsPass wEnvC8 wStC6 [] (collectFontChars [wT4])).2.1) ∧
    (∃ d, generateEditedPDF wEnvC8 wStC6 wDoc5 [wT4] 100 = .ok d) ∧
    exportPDF wEnvC8 wStC6 (.ok wDoc5) [wT4] 100 = true := by
  have h := no_font_fallback wEnvC8 wStC6 wDoc5 [wT4] 100 (by decide)
    (by decide) (by decide) (by decide)
  exact ⟨by decide, by decide, h.2.1, h.2.2.2.1, h.2.2.2.2⟩

end PDFEditor
